import Mathlib

set_option maxRecDepth 4000
set_option exponentiation.threshold 2000

/-!
Verification development for the FFmpeg FITS image support
(libavcodec/fitsdec.c, libavcodec/fitsenc.c, libavformat/fitsdec.c).

Modelling conventions, used throughout:

* Bytes of the packet are `Nat` values (0..255) in a `List Nat`; a pointer
  walking the buffer is modelled by passing the remaining suffix of the list.
* C `double` values are modelled as exact rationals (`ℚ`).  All concrete
  inputs used in the theorems below are chosen so that the double
  computations of the source are exact, hence agree with `ℚ`.
* IEEE special values (NaN, infinities) have no rational counterpart: the
  bit patterns with an all-ones exponent decode to `none`, and a division
  whose divisor is zero (which produces NaN or ±inf in C) yields `none`.
* A C conversion from `double` to an integer type truncates toward zero
  (`truncQ`); the subsequent store into a fixed-width destination is
  modelled by reduction mod 2^width (the behaviour of the generated x86
  code; ISO C leaves out-of-range conversions undefined, and the theorems
  only apply the conversion inside the defined range).
* Fallible C paths (`return AVERROR_INVALIDDATA`, reads past the checked
  end, undefined behaviour) are `Option`/`Except` failures.
-/

/-- DBL_MAX: the largest finite IEEE-754 double, (2^53 - 1) * 2^971,
used by fill_data_min_max as the initial minimum accumulator. -/
def DBL_MAX : ℚ := ((2^53 - 1) * 2^971 : ℕ)

/-- DBL_MIN: the smallest positive normalized IEEE-754 double, 2^(-1022),
used by fill_data_min_max as the initial MAXIMUM accumulator (a positive
value, not -DBL_MAX). -/
def DBL_MIN : ℚ := 1 / 2^1022

/-- Two's-complement reinterpretation of a w-bit unsigned value as signed
(the C assignment of AV_RB16/32/64 results into int16_t/int32_t/int64_t). -/
def toSigned (w : Nat) (v : Nat) : Int := if v < 2^(w-1) then (v : Int) else (v : Int) - 2^w

/-- Value of an IEEE-754 binary float given its bit pattern, split as
expBits exponent bits and mantBits mantissa bits.  Finite values are exact
rationals; NaN/inf (all-ones exponent) are outside the model (`none`). -/
def ieeeFloat (expBits mantBits : Nat) (b : Nat) : Option ℚ :=
  let m := b % 2^mantBits
  let e := b / 2^mantBits % 2^expBits
  let s := b / 2^(mantBits + expBits) % 2
  if e = 2^expBits - 1 then none
  else
    let mag : ℚ :=
      if e = 0 then (m : ℚ) * (2:ℚ)^((2 : ℤ) - (2^(expBits - 1) : ℕ) - (mantBits : ℕ))
      else ((2^mantBits + m : ℕ) : ℚ) * (2:ℚ)^((e : ℤ) - ((2^(expBits - 1) - 1 : ℕ)) - (mantBits : ℕ))
    some (if s = 1 then -mag else mag)

/-- Read one raw sample of the given BITPIX from the head of the stream,
big-endian, returning its numeric value and the rest of the stream.
Mirrors the six per-type branches of fitsdec.c (AV_RB16/32/64,
av_int2float, av_int2double; 16/32/64-bit integers are signed).
`none` models an unsupported BITPIX, a read past the end, or an IEEE
special value. -/
def readRaw (bitpix : Int) (bs : List Nat) : Option (ℚ × List Nat) :=
  if bitpix = 8 then
    match bs with
    | b :: r => some ((b : ℚ), r)
    | _ => none
  else if bitpix = 16 then
    match bs with
    | b1 :: b0 :: r => some (((toSigned 16 (b1 * 256 + b0) : Int) : ℚ), r)
    | _ => none
  else if bitpix = 32 then
    match bs with
    | b3 :: b2 :: b1 :: b0 :: r =>
        some (((toSigned 32 (((b3 * 256 + b2) * 256 + b1) * 256 + b0) : Int) : ℚ), r)
    | _ => none
  else if bitpix = 64 then
    match bs with
    | b7 :: b6 :: b5 :: b4 :: b3 :: b2 :: b1 :: b0 :: r =>
        some (((toSigned 64 ((((((((b7 * 256 + b6) * 256 + b5) * 256 + b4) * 256 + b3) * 256
          + b2) * 256 + b1) * 256) + b0) : Int) : ℚ), r)
    | _ => none
  else if bitpix = -32 then
    match bs with
    | b3 :: b2 :: b1 :: b0 :: r =>
        (ieeeFloat 8 23 (((b3 * 256 + b2) * 256 + b1) * 256 + b0)).map (fun q => (q, r))
    | _ => none
  else if bitpix = -64 then
    match bs with
    | b7 :: b6 :: b5 :: b4 :: b3 :: b2 :: b1 :: b0 :: r =>
        (ieeeFloat 11 52 (((((((b7 * 256 + b6) * 256 + b5) * 256 + b4) * 256 + b3) * 256
          + b2) * 256 + b1) * 256 + b0)).map (fun q => (q, r))
    | _ => none
  else none

/-- Read n consecutive raw samples. -/
def readSamples (bitpix : Int) : Nat → List Nat → Option (List ℚ × List Nat)
  | 0, bs => some ([], bs)
  | n + 1, bs =>
    match readRaw bitpix bs with
    | none => none
    | some (t, r) =>
      match readSamples bitpix n r with
      | none => none
      | some (ts, r2) => some (t :: ts, r2)

/-- One update step of the data_min/data_max scan of fill_data_min_max:
samples equal to BLANK (when present) are skipped, otherwise the two
accumulators are compared and adjusted (strict comparisons, as in the
source). -/
def mmUpd (blank_found : Bool) (blank : Int) (mm : ℚ × ℚ) (t : ℚ) : ℚ × ℚ :=
  if blank_found = true ∧ t = (blank : ℚ) then mm
  else (if t < mm.1 then t else mm.1, if mm.2 < t then t else mm.2)

/-- Inner (column) loop of fill_data_min_max: scan w samples of one row. -/
def fillRow (bitpix : Int) (bf : Bool) (blank : Int) :
    Nat → List Nat → ℚ × ℚ → Option ((ℚ × ℚ) × List Nat)
  | 0, bs, mm => some (mm, bs)
  | j + 1, bs, mm =>
    match readRaw bitpix bs with
    | none => none
    | some (t, r) => fillRow bitpix bf blank j r (mmUpd bf blank mm t)

/-- Outer (row) loop of fill_data_min_max. -/
def fillRows (bitpix : Int) (bf : Bool) (blank : Int) (w : Nat) :
    Nat → List Nat → ℚ × ℚ → Option ((ℚ × ℚ) × List Nat)
  | 0, bs, mm => some (mm, bs)
  | i + 1, bs, mm =>
    match fillRow bitpix bf blank w bs mm with
    | none => none
    | some (mm2, r) => fillRows bitpix bf blank w i r mm2

/-- fill_data_min_max (libavcodec/fitsdec.c): scan the naxisn[1] × naxisn[0]
data matrix for the minimum and maximum raw sample, skipping BLANK values,
with the accumulators initialized to (DBL_MAX, DBL_MIN).  Returns
(data_min, data_max); `none` is the AVERROR_INVALIDDATA branch (unsupported
BITPIX), or data missing from the modelled fragment. -/
def fill_data_min_max (bitpix : Int) (bf : Bool) (blank : Int) (w h : Nat)
    (bs : List Nat) : Option (ℚ × ℚ) :=
  (fillRows bitpix bf blank w h bs (DBL_MAX, DBL_MIN)).map (fun p => p.1)

/-- C truncation toward zero of a double-to-integer conversion. -/
def truncQ (q : ℚ) : Int := if q < 0 then -(⌊-q⌋) else ⌊q⌋

/-- Store a truncated value into a w-bit destination: two's-complement
wrap mod 2^w (behaviour of the generated code; the theorems apply it only
in the defined range). -/
def cvtStore (w : Nat) (q : ℚ) : Nat := ((truncQ q).emod (2^w)).toNat

/-- Scale factor of the grayscale normalization: 255 for BITPIX 8,
65535 otherwise (GRAY8 vs GRAY16 output). -/
def grayK (bitpix : Int) : Nat := if bitpix = 8 then 255 else 65535

/-- Output sample width: 8 bits for BITPIX 8, 16 otherwise. -/
def grayW (bitpix : Int) : Nat := if bitpix = 8 then 8 else 16

/-- Decode one grayscale sample (fits_decode_frame, non-RGB branches):
a BLANK sample becomes 0; otherwise the min-max normalization
(v - data_min) * K / (data_max - data_min) is computed in double and
truncated into the destination.  The source divides WITHOUT guarding
data_max = data_min; in that case the result is NaN or ±inf, i.e. `none`
here. -/
def graySample (bitpix : Int) (bf : Bool) (blank : Int) (dmin dmax : ℚ) (t : ℚ) : Option Nat :=
  if bf = true ∧ t = (blank : ℚ) then some 0
  else if dmax - dmin = 0 then none
  else some (cvtStore (grayW bitpix) ((t - dmin) * (grayK bitpix : ℚ) / (dmax - dmin)))

/-- Decode one raster row of w grayscale samples. -/
def grayRow (bitpix : Int) (bf : Bool) (blank : Int) (dmin dmax : ℚ) :
    Nat → List Nat → Option (List Nat × List Nat)
  | 0, bs => some ([], bs)
  | j + 1, bs =>
    match readRaw bitpix bs with
    | none => none
    | some (t, r) =>
      match graySample bitpix bf blank dmin dmax t with
      | none => none
      | some o =>
        match grayRow bitpix bf blank dmin dmax j r with
        | none => none
        | some (os, r2) => some (o :: os, r2)

/-- Decode h raster rows in stream order. -/
def grayRows (bitpix : Int) (bf : Bool) (blank : Int) (dmin dmax : ℚ) (w : Nat) :
    Nat → List Nat → Option (List (List Nat) × List Nat)
  | 0, bs => some ([], bs)
  | i + 1, bs =>
    match grayRow bitpix bf blank dmin dmax w bs with
    | none => none
    | some (row, r) =>
      match grayRows bitpix bf blank dmin dmax w i r with
      | none => none
      | some (rows, r2) => some (row :: rows, r2)

/-- Grayscale decode of fits_decode_frame: the stream rows are decoded in
order and written bottom-to-top into the raster (FITS stores the bottom
row first), i.e. the raster, top row first, is the reverse of the decoded
stream rows. -/
def fits_decode_gray (bitpix : Int) (bf : Bool) (blank : Int) (dmin dmax : ℚ)
    (w h : Nat) (bs : List Nat) : Option (List (List Nat)) :=
  (grayRows bitpix bf blank dmin dmax w h bs).map (fun p => p.1.reverse)

/-- Grayscale decode on the header path without DATAMIN/DATAMAX: first
fill_data_min_max scans the data, then the same data is normalized with
the scanned bounds (fits_read_header lines 308-312 followed by
fits_decode_frame lines 469-556). -/
def grayPipelineScan (bitpix : Int) (bf : Bool) (blank : Int) (w h : Nat)
    (bs : List Nat) : Option (List (List Nat)) :=
  match fill_data_min_max bitpix bf blank w h bs with
  | none => none
  | some (dmin, dmax) => fits_decode_gray bitpix bf blank dmin dmax w h bs

/-- Grayscale decode on the header path with DATAMIN/DATAMAX present: the
header values are inverted once to the raw domain, raw = (v - bzero)/bscale
(fits_read_header lines 313-320), then the data is normalized with them. -/
def grayPipelineMinMax (bitpix : Int) (bf : Bool) (blank : Int)
    (bscale bzero data_min data_max : ℚ) (w h : Nat) (bs : List Nat) :
    Option (List (List Nat)) :=
  fits_decode_gray bitpix bf blank ((data_min - bzero) / bscale)
    ((data_max - bzero) / bscale) w h bs

/-- Scale one raw RGB sample (fits_decode_frame, RGB branches): the sample
is held in a uint64_t; if it equals BLANK (compared as uint64) it becomes
0, otherwise t * bscale + bzero is computed in double and converted back
to uint64_t.  The conversion is defined only for results in [0, 2^64). -/
def rgbScale (bf : Bool) (blank : Int) (bscale bzero : ℚ) (v : Nat) : Option Nat :=
  if bf ∧ (v : Int) = blank.emod (2^64) then some 0
  else
    let t := truncQ ((v : ℚ) * bscale + bzero)
    if 0 ≤ t ∧ t < 2^64 then some t.toNat else none

/-- Pack the four scaled 8-bit-path channel values into the output uint32
word: a << 24 | r << 16 | g << 8 | b, each shifted in uint64 and truncated
to uint32 before the bitwise or (so an out-of-range channel value bleeds
into the neighbouring channel bytes). -/
def rgbPixel8 (a r g b : Nat) : Nat :=
  (((a <<< 24) % 2^64) % 2^32) ||| (((r <<< 16) % 2^64) % 2^32) |||
  (((g <<< 8) % 2^64) % 2^32) ||| (b % 2^32)

/-- Pack the four scaled 16-bit-path channel values into the output uint64
word: a << 48 | r << 32 | g << 16 | b in uint64 arithmetic. -/
def rgbPixel16 (a r g b : Nat) : Nat :=
  ((a <<< 48) % 2^64) ||| ((r <<< 32) % 2^64) ||| ((g <<< 16) % 2^64) ||| (b % 2^64)

/-- One pixel of the 8-bit RGB decode.  With the byte pointer advanced n
bytes past the data start, the source reads ptr8[0], ptr8[size],
ptr8[size*2] and (for NAXIS3 = 4) ptr8[size*3], size = width*height; with
NAXIS3 = 3 alpha is the constant 255 << 24.  Channel order in the word is
A,R,G,B from plane 3(A),0(R),1(G),2(B). -/
def rgb8Pixel (bf : Bool) (blank : Int) (bscale bzero : ℚ) (naxisn3 size : Nat)
    (bs : List Nat) (n : Nat) : Option Nat := do
  let a ← if naxisn3 = 4 then rgbScale bf blank bscale bzero (bs.getD (size * 3 + n) 0)
          else some 255
  let r ← rgbScale bf blank bscale bzero (bs.getD n 0)
  let g ← rgbScale bf blank bscale bzero (bs.getD (size + n) 0)
  let b ← rgbScale bf blank bscale bzero (bs.getD (size * 2 + n) 0)
  some (rgbPixel8 a r g b)

/-- One pixel of the 16-bit RGB decode ("not tested" in the source).  With
the byte pointer at offset 2n, each channel k is read as the big-endian
pair at byte offset size*k + 2n — note size counts PIXELS, so for 16-bit
samples the true plane stride in bytes would be 2*size; the source uses
size*k as written. -/
def rgb16Pixel (bf : Bool) (blank : Int) (bscale bzero : ℚ) (naxisn3 size : Nat)
    (bs : List Nat) (n : Nat) : Option Nat := do
  let rd := fun k : Nat => bs.getD (size * k + 2 * n) 0 * 256 + bs.getD (size * k + 2 * n + 1) 0
  let a ← if naxisn3 = 4 then rgbScale bf blank bscale bzero (rd 3)
          else some 65535
  let r ← rgbScale bf blank bscale bzero (rd 0)
  let g ← rgbScale bf blank bscale bzero (rd 1)
  let b ← rgbScale bf blank bscale bzero (rd 2)
  some (rgbPixel16 a r g b)

/-- Decode one RGB raster row: w pixels with consecutive indices starting
at n0. -/
def rgbRowLoop (pix : Nat → Option Nat) (n0 : Nat) : Nat → Option (List Nat)
  | 0 => some []
  | j + 1 => do
    let p ← pix n0
    let rest ← rgbRowLoop pix (n0 + 1) j
    some (p :: rest)

/-- Decode h RGB rows in stream order. -/
def rgbRowsLoop (pix : Nat → Option Nat) (w : Nat) (n0 : Nat) : Nat → Option (List (List Nat))
  | 0 => some []
  | i + 1 => do
    let row ← rgbRowLoop pix n0 w
    let rest ← rgbRowsLoop pix w (n0 + w) i
    some (row :: rest)

/-- RGB decode of fits_decode_frame for BITPIX 8 (pix_fmt RGB32): rows are
decoded in stream order and the raster is their reverse (bottom row
first in the file). -/
def fits_decode_rgb8 (bf : Bool) (blank : Int) (bscale bzero : ℚ) (naxisn3 : Nat)
    (w h : Nat) (bs : List Nat) : Option (List (List Nat)) :=
  (rgbRowsLoop (rgb8Pixel bf blank bscale bzero naxisn3 (w * h) bs) w 0 h).map List.reverse

/-- RGB decode of fits_decode_frame for BITPIX 16 (pix_fmt RGBA64). -/
def fits_decode_rgb16 (bf : Bool) (blank : Int) (bscale bzero : ℚ) (naxisn3 : Nat)
    (w h : Nat) (bs : List Nat) : Option (List (List Nat)) :=
  (rgbRowsLoop (rgb16Pixel bf blank bscale bzero naxisn3 (w * h) bs) w 0 h).map List.reverse

/-! ## Encoder (libavcodec/fitsenc.c) -/

/-- ASCII decimal digits of a nonnegative number (snprintf %d). -/
def natDigits (n : Nat) : List Nat := (Nat.toDigits 10 n).map Char.toNat

/-- ASCII decimal rendering of an integer (snprintf %d). -/
def intDigits (v : Int) : List Nat :=
  if v < 0 then 45 :: natDigits v.natAbs else natDigits v.natAbs

/-- write_keyword_value: an 80-byte card, keyword at column 0 padded with
spaces to column 8, then "= ", then the decimal value, then spaces. -/
def write_keyword_value (kw : List Nat) (v : Int) : List Nat :=
  let ds := intDigits v
  kw ++ List.replicate (8 - kw.length) 32 ++ [61, 32] ++ ds ++
    List.replicate (70 - ds.length) 32

/-- Card "SIMPLE  = " with 'T' at byte 29 (fits_encode_frame first image). -/
def simpleCard : List Nat :=
  [83, 73, 77, 80, 76, 69, 32, 32, 61, 32] ++ List.replicate 19 32 ++ [84] ++
    List.replicate 50 32

/-- Card "XTENSION= 'IMAGE   '" (39 is the quote character). -/
def xtensionCard : List Nat :=
  [88, 84, 69, 78, 83, 73, 79, 78, 61, 32, 39, 73, 77, 65, 71, 69, 32, 32, 32, 39] ++
    List.replicate 60 32

/-- Card "CTYPE3  = 'RGB     '". -/
def ctype3Card : List Nat :=
  [67, 84, 89, 80, 69, 51, 32, 32, 61, 32, 39, 82, 71, 66, 32, 32, 32, 32, 32, 39] ++
    List.replicate 60 32

/-- Card "END" followed by spaces. -/
def endCard : List Nat := [69, 78, 68] ++ List.replicate 77 32

/-- The header cards emitted by fits_encode_frame, in order: SIMPLE (or
XTENSION for later images), BITPIX, NAXIS, NAXIS1, NAXIS2, NAXIS3 (rgb),
PCOUNT/GCOUNT (later images), BZERO (16-bit only), CTYPE3 (rgb), END. -/
def fits_encode_header_cards (first_image : Bool) (bitpix naxis3 width height : Int)
    (rgb : Bool) : List (List Nat) :=
  [if first_image then simpleCard else xtensionCard] ++
  [write_keyword_value [66, 73, 84, 80, 73, 88] bitpix,                -- BITPIX
   write_keyword_value [78, 65, 88, 73, 83] (if rgb then 3 else 2),    -- NAXIS
   write_keyword_value [78, 65, 88, 73, 83, 49] width,                 -- NAXIS1
   write_keyword_value [78, 65, 88, 73, 83, 50] height] ++             -- NAXIS2
  (if rgb then [write_keyword_value [78, 65, 88, 73, 83, 51] naxis3] else []) ++
  (if first_image then []
   else [write_keyword_value [80, 67, 79, 85, 78, 84] 0,               -- PCOUNT
         write_keyword_value [71, 67, 79, 85, 78, 84] 1]) ++           -- GCOUNT
  (if bitpix = 16 then [write_keyword_value [66, 90, 69, 82, 79] 32768] else []) ++
  (if rgb then [ctype3Card] else []) ++
  [endCard]

/-- bytestream_put_be16(AV_RB16(ptr) - bzero): the 16-bit raster sample
minus the bias, truncated to 16 bits, written big-endian. -/
def putBE16sub (bzero : Int) (s : Nat) : List Nat :=
  let v := (((s : Int) - bzero).emod 65536).toNat
  [v / 256, v % 256]

/-- Grayscale data segment written by fits_encode_frame: rows of the
raster from the bottom up (the vertical flip, inverse of decode); 16-bit
samples are biased by bzero = 32768 and written big-endian, 8-bit rows
are copied as they are. -/
def fits_encode_gray_data (bitpix : Int) (raster : List (List Nat)) : List Nat :=
  (raster.reverse.map
    (fun row => if bitpix = 16 then row.flatMap (putBE16sub 32768) else row)).flatten

/-- 16-bit RGB data segment written by fits_encode_frame: for each FITS
plane k < naxis3, AVFrame plane map[k] (map = [2,0,1,3], turning G,B,R,A
storage into R,G,B,A output) is written bottom-up, each sample biased by
32768. -/
def fits_encode_rgb16_data (naxis3 : Nat) (planes : List (List (List Nat))) : List Nat :=
  ((List.range naxis3).map (fun k =>
    ((planes.getD ([2, 0, 1, 3].getD k 0) []).reverse.map
      (fun row => row.flatMap (putBE16sub 32768))).flatten)).flatten

/-! ## Demuxer size computation (libavformat/fitsdec.c, find_size) -/

/-- LLONG_MAX. -/
def LLONG_MAX : Int := 2^63 - 1

/-- The dimension-product loop of find_size with its per-step overflow
check naxisn[i] > LLONG_MAX / data_size (C division truncates toward
zero, Int.tdiv).  A zero running product makes the C division trap; the
theorems below only use positive dimensions. -/
def findSizeLoop : List Int → Int → Except Unit Int
  | [], ds => .ok ds
  | d :: rest, ds => if LLONG_MAX.tdiv ds < d then .error () else findSizeLoop rest (ds * d)

def find_size_tail (bitpix pcount gcount header_size : Int)
    (step1 : Except Unit Int) : Except Unit Int :=
  let hs := ((header_size + 2879).tdiv 2880) * 2880
  match step1 with
  | .error e => .error e
  | .ok ds0 =>
    if LLONG_MAX - ds0 < pcount then .error ()
    else
      let ds1 := ds0 + pcount
      let t : Int := ((bitpix.natAbs >>> 3 : Nat) : Int) * gcount
      if ds1 ≠ 0 ∧ LLONG_MAX.tdiv ds1 < t then .error ()
      else
        let ds2 := ds1 * t
        if ds2 = 0 then
          if LLONG_MAX - ds2 < hs then .error () else .ok (hs + ds2)
        else
          if LLONG_MAX - ds2 < 2879 then .error ()
          else
            let ds3 := ((ds2 + 2879).tdiv 2880) * 2880
            if LLONG_MAX - ds3 < hs then .error () else .ok (hs + ds3)

/-- Size computation of find_size (lines 145-187), given the values
collected from the header cards: the rounded-up header size plus the data
segment size (∏ dims, or ∏ dims[1..] for random groups, plus PCOUNT, times
(|bitpix|/8)·GCOUNT), rounded up to a 2880-byte block, with every step
guarded against int64 overflow (find_size_tail is the part after the
dimension loop).  The fits->image flag bookkeeping of the demuxer is
omitted (it only drives packet search). -/
def find_size_calc (bitpix naxis : Int) (naxisn : List Int) (groups : Bool)
    (pcount gcount header_size : Int) : Except Unit Int :=
  find_size_tail bitpix pcount gcount header_size
    (if groups then findSizeLoop (naxisn.drop 1) (if 1 < naxis then 1 else 0)
     else if naxis ≠ 0 then findSizeLoop naxisn 1
     else .ok 0)


/-! ## Header parser (libavcodec/fitsdec.c, fits_read_header)

The sscanf format strings of the source are modelled character for
character: a space in a format matches any run of whitespace (including
none), %d skips whitespace and reads an optionally signed digit run, %lf
reads a decimal floating literal (the hexadecimal/infinity/nan forms of
strtod never appear in FITS cards and are outside the model), %c reads
the next character without skipping.  The scanners run on the whole
remaining buffer, exactly as sscanf does on the packet (cards are not
NUL-terminated, so a scan may look past the 80-byte card).  The metadata
dictionary of the source (key/value extraction at lines 234-276) has no
effect on parsing or decoding and is omitted. -/

/-- C isspace. -/
def isWS (c : Nat) : Bool := c = 32 || (9 ≤ c && c ≤ 13)

/-- Whitespace run skip (a space directive in an sscanf format). -/
def skipWS : List Nat → List Nat
  | [] => []
  | c :: r => if isWS c then skipWS r else c :: r

/-- Match the literal characters of a format. -/
def scanLit : List Nat → List Nat → Option (List Nat)
  | [], s => some s
  | _ :: _, [] => none
  | l :: ls, c :: r => if c = l then scanLit ls r else none

/-- Longest digit run, accumulating the decimal value. -/
def scanDigitsAux : List Nat → Nat → Nat × List Nat
  | [], acc => (acc, [])
  | c :: r, acc =>
    if 48 ≤ c ∧ c ≤ 57 then scanDigitsAux r (acc * 10 + (c - 48)) else (acc, c :: r)

/-- %u-style digit run: at least one digit. -/
def scanUInt : List Nat → Option (Nat × List Nat)
  | [] => none
  | c :: r => if 48 ≤ c ∧ c ≤ 57 then some (scanDigitsAux r (c - 48)) else none

/-- %d conversion: whitespace skip, optional sign, digit run. -/
def scanInt (s : List Nat) : Option (Int × List Nat) :=
  match skipWS s with
  | 45 :: r => (scanUInt r).map (fun p => (-(p.1 : Int), p.2))
  | 43 :: r => (scanUInt r).map (fun p => ((p.1 : Int), p.2))
  | s2 => (scanUInt s2).map (fun p => ((p.1 : Int), p.2))

/-- Digit run returned as a list (for the fraction part of %lf). -/
def takeDigits : List Nat → List Nat × List Nat
  | [] => ([], [])
  | c :: r =>
    if 48 ≤ c ∧ c ≤ 57 then
      let p := takeDigits r
      ((c - 48) :: p.1, p.2)
    else ([], c :: r)

/-- Decimal value of a digit list. -/
def digitsVal (ds : List Nat) : Nat := ds.foldl (fun a d => a * 10 + d) 0

/-- Exponent part of %lf: e/E, optional sign, digits; when no digits
follow the e, strtod backtracks and the exponent is not consumed. -/
def scanExp (s : List Nat) : Int × List Nat :=
  match s with
  | 101 :: r | 69 :: r =>
    (match r with
     | 45 :: r2 =>
       match takeDigits r2 with
       | ([], _) => (0, s)
       | (ds, r3) => (-(digitsVal ds : Int), r3)
     | 43 :: r2 =>
       match takeDigits r2 with
       | ([], _) => (0, s)
       | (ds, r3) => ((digitsVal ds : Int), r3)
     | _ =>
       match takeDigits r with
       | ([], _) => (0, s)
       | (ds, r3) => ((digitsVal ds : Int), r3))
  | _ => (0, s)

/-- %lf conversion for decimal literals: sign, integer digits, optional
fraction, optional exponent; at least one digit overall. -/
def scanFloat (s : List Nat) : Option (ℚ × List Nat) :=
  let core : List Nat → Option (ℚ × List Nat) := fun s2 =>
    let p := takeDigits s2
    match p.2 with
    | 46 :: r2 =>
      let q := takeDigits r2
      if p.1 = [] ∧ q.1 = [] then none
      else
        let m : ℚ := (digitsVal (p.1 ++ q.1) : ℚ) / (10:ℚ)^(q.1.length)
        let e := scanExp q.2
        some (m * (10:ℚ)^(e.1), e.2)
    | _ =>
      if p.1 = [] then none
      else
        let e := scanExp p.2
        some ((digitsVal p.1 : ℚ) * (10:ℚ)^(e.1), e.2)
  match skipWS s with
  | 45 :: r => (core r).map (fun p => (-p.1, p.2))
  | 43 :: r => core r
  | s2 => core s2

/-- Keyword followed by whitespace and the literal '=' (the common
"KEYWORD = " part of the format strings). -/
def scanKeywordEq (kw : List Nat) (s : List Nat) : Option (List Nat) :=
  (scanLit kw s).bind (fun r =>
    match skipWS r with
    | 61 :: r2 => some r2
    | _ => none)

/-- sscanf(s, "KW = %d", &v). -/
def sscanfKwInt (kw : List Nat) (s : List Nat) : Option Int :=
  (scanKeywordEq kw s).bind (fun r => (scanInt r).map (fun p => p.1))

/-- sscanf(s, "KW = %lf", &v). -/
def sscanfKwFloat (kw : List Nat) (s : List Nat) : Option ℚ :=
  (scanKeywordEq kw s).bind (fun r => (scanFloat r).map (fun p => p.1))

/-- sscanf(s, "SIMPLE = %c", &c): the character after the whitespace that
follows the '='. -/
def sscanfSIMPLE (s : List Nat) : Option Nat :=
  (scanKeywordEq [83, 73, 77, 80, 76, 69] s).bind (fun r => (skipWS r).head?)

/-- sscanf(s, "NAXIS%d = %d", &dim_no, &v). -/
def sscanfNAXISn (s : List Nat) : Option (Int × Int) :=
  (scanLit [78, 65, 88, 73, 83] s).bind (fun r =>
    (scanInt r).bind (fun p =>
      match skipWS p.2 with
      | 61 :: r2 => (scanInt r2).map (fun q => (p.1, q.1))
      | _ => none))

/-- Boolean prefix test (strncmp(s, lit, lit.length) == 0). -/
def hasPre (lit : List Nat) (s : List Nat) : Bool := lit.isPrefixOf s

/-- Prefix "XTENSION= 'IMAGE". -/
def xtensionPre : List Nat := [88, 84, 69, 78, 83, 73, 79, 78, 61, 32, 39, 73, 77, 65, 71, 69]

/-- Prefix "CTYPE3  = 'RGB". -/
def ctype3RgbPre : List Nat := [67, 84, 89, 80, 69, 51, 32, 32, 61, 32, 39, 82, 71, 66]

/-- Prefix "END". -/
def endPre : List Nat := [69, 78, 68]

/-- The FITSHeader record of fitsdec.c.  naxisn is the int[3] array.
data_min/data_max are 0 until set (in C they are uninitialized stack
memory until the DATAMIN/DATAMAX cards or fill_data_min_max write them;
no modelled path reads them before that). -/
structure FITSHeader where
  simple : Nat := 0
  bitpix : Int := 0
  blank : Int := 0
  blank_found : Bool := false
  naxis : Int := 0
  naxisn : List Int := [0, 0, 0]
  rgb : Bool := false
  xtension : Bool := false
  bscale : ℚ := 1
  bzero : ℚ := 0
  data_min : ℚ := 0
  data_max : ℚ := 0
deriving DecidableEq

/-- Result of fits_read_header: the completed header, the data segment
(the buffer after the header padding), the number of 80-byte cards
consumed through END, and the number of padding cards skipped. -/
structure ParseOut where
  hdr : FITSHeader
  data : List Nat
  cards : Nat
  padCards : Nat
deriving DecidableEq

/-- One card of the free-form loop: the else-if chain over
BLANK/BSCALE/BZERO/DATAMAX/DATAMIN/CTYPE3 (in source order); the CTYPE3
RGB card checks NAXIS = 3 and NAXIS3 ∈ {3,4} immediately and fails
otherwise.  Returns the updated header and DATAMIN/DATAMAX-found flags. -/
def freeformCard (hdr : FITSHeader) (minF maxF : Bool) (rem : List Nat) :
    Except Unit (FITSHeader × Bool × Bool) :=
  match sscanfKwInt [66, 76, 65, 78, 75] rem with                      -- BLANK
  | some t => .ok ({ hdr with blank := t, blank_found := true }, minF, maxF)
  | none =>
  match sscanfKwFloat [66, 83, 67, 65, 76, 69] rem with                -- BSCALE
  | some d => .ok ({ hdr with bscale := d }, minF, maxF)
  | none =>
  match sscanfKwFloat [66, 90, 69, 82, 79] rem with                    -- BZERO
  | some d => .ok ({ hdr with bzero := d }, minF, maxF)
  | none =>
  match sscanfKwFloat [68, 65, 84, 65, 77, 65, 88] rem with            -- DATAMAX
  | some d => .ok ({ hdr with data_max := d }, minF, true)
  | none =>
  match sscanfKwFloat [68, 65, 84, 65, 77, 73, 78] rem with            -- DATAMIN
  | some d => .ok ({ hdr with data_min := d }, true, maxF)
  | none =>
  if hasPre ctype3RgbPre rem then
    if hdr.naxis ≠ 3 ∨ (hdr.naxisn.getD 2 0 ≠ 3 ∧ hdr.naxisn.getD 2 0 ≠ 4) then .error ()
    else .ok ({ hdr with rgb := true }, minF, maxF)
  else .ok (hdr, minF, maxF)

/-- The free-form card loop (while strncmp(ptr8, "END", 3)), entered with
at least 80 bytes remaining; each iteration processes one card, advances
80 bytes and requires 80 more.  The fuel argument is the remaining buffer
length at entry, which bounds the possible number of iterations, so the
fuel-exhaustion error is unreachable. -/
def freeformLoop : Nat → FITSHeader → Bool → Bool → List Nat → Nat →
    Except Unit (FITSHeader × Bool × Bool × List Nat × Nat)
  | 0, _, _, _, _, _ => .error ()
  | fuel + 1, hdr, minF, maxF, rem, lines =>
    if hasPre endPre rem then .ok (hdr, minF, maxF, rem, lines)
    else
      match freeformCard hdr minF maxF rem with
      | .error e => .error e
      | .ok (h2, mF, xF) =>
        let rem2 := rem.drop 80
        if rem2.length < 80 then .error ()
        else freeformLoop fuel h2 mF xF rem2 (lines + 1)

/-- The NAXIS1..NAXISn card loop: each card must scan as NAXIS%d = %d with
the dimension number i+1; the uint64 size accumulator multiplies in each
dimension (conversion of the int value to uint64, wrapping mod 2^64). -/
def naxisLoop : Nat → Nat → List Nat → List Int → Nat → Nat →
    Except Unit (List Int × Nat × List Nat × Nat)
  | 0, _, rem, naxisn, size, lines => .ok (naxisn, size, rem, lines)
  | c + 1, i, rem, naxisn, size, lines =>
    if rem.length < 80 then .error ()
    else
      match sscanfNAXISn rem with
      | none => .error ()
      | some (dim_no, v) =>
        if dim_no ≠ (i : Int) + 1 then .error ()
        else naxisLoop c (i + 1) (rem.drop 80) (naxisn.set i v)
          ((size * ((v.emod (2^64)).toNat)) % 2^64) (lines + 1)

/-- fits_read_header (libavcodec/fitsdec.c lines 114-324): parse the
mandatory cards SIMPLE|XTENSION, BITPIX, NAXIS, NAXIS1..NAXISn, then the
free-form cards until END; reject NAXIS = 0 and NAXIS ∉ {2,3}, and
(after END) a non-RGB 3-dimensional image; clear BLANK for float BITPIX;
skip the padding cards to the 36-card boundary (checked against the
remaining length); require the remaining bytes to cover the uint64 data
size |bitpix|/8 · ∏ naxisn; finally resolve data_min/data_max either by
scanning the data (fill_data_min_max) or by inverting the header values
through bzero/bscale. -/
def fits_read_header (buf : List Nat) : Except Unit ParseOut :=
  if buf.length < 80 then .error ()
  else
    let step0 : Except Unit FITSHeader :=
      match sscanfSIMPLE buf with
      | some c =>
        if c = 70 then .ok { simple := c, xtension := false }
        else if c ≠ 84 then .error ()
        else .ok { simple := c, xtension := false }
      | none =>
        if hasPre xtensionPre buf then .ok { xtension := true }
        else .error ()
    match step0 with
    | .error e => .error e
    | .ok h0 =>
      let rem1 := buf.drop 80
      if rem1.length < 80 then .error ()
      else
        match sscanfKwInt [66, 73, 84, 80, 73, 88] rem1 with           -- BITPIX
        | none => .error ()
        | some bp =>
          let h1 := { h0 with bitpix := bp }
          let size0 := bp.natAbs >>> 3
          let rem2 := rem1.drop 80
          if rem2.length < 80 then .error ()
          else
            match sscanfKwInt [78, 65, 88, 73, 83] rem2 with           -- NAXIS
            | none => .error ()
            | some nx =>
              if nx = 0 then .error ()
              else if nx ≠ 2 ∧ nx ≠ 3 then .error ()
              else
                let h2 := { h1 with naxis := nx }
                let rem3 := rem2.drop 80
                match naxisLoop nx.toNat 0 rem3 h2.naxisn size0 3 with
                | .error e => .error e
                | .ok (nxs, size, rem4, lines4) =>
                  let h3 := { h2 with naxisn := nxs }
                  if rem4.length < 80 then .error ()
                  else
                    match freeformLoop rem4.length h3 false false rem4 lines4 with
                    | .error e => .error e
                    | .ok (h4, minF, maxF, rem5, lines5) =>
                      if ¬h4.rgb ∧ h4.naxis ≠ 2 then .error ()
                      else
                        let h5 :=
                          if h4.blank_found ∧ (h4.bitpix = -32 ∨ h4.bitpix = -64) then
                            { h4 with blank_found := false }
                          else h4
                        let rem6 := rem5.drop 80
                        let lines6 := lines5 + 1
                        let padB := ((36 - lines6 % 36) % 36) * 80
                        if rem6.length < padB then .error ()
                        else
                          let rem7 := rem6.drop padB
                          if rem7.length < size then .error ()
                          else if ¬h5.rgb ∧ (¬minF ∨ ¬maxF) then
                            match fill_data_min_max h5.bitpix h5.blank_found h5.blank
                                (h5.naxisn.getD 0 0).toNat (h5.naxisn.getD 1 0).toNat rem7 with
                            | none => .error ()
                            | some (mn, mx) =>
                              .ok ⟨{ h5 with data_min := mn, data_max := mx },
                                   rem7, lines6, padB / 80⟩
                          else
                            .ok ⟨{ h5 with
                                   data_min := (h5.data_min - h5.bzero) / h5.bscale,
                                   data_max := (h5.data_max - h5.bzero) / h5.bscale },
                                 rem7, lines6, padB / 80⟩

/-- Pad a card prefix with spaces to 80 bytes (test inputs). -/
def padCard (l : List Nat) : List Nat := l ++ List.replicate (80 - l.length) 32

/-- The per-sample grayscale output written by the source when the
divisor is nonzero: 0 for BLANK, else the truncated normalization. -/
def graySpecFun (bp : Int) (bf : Bool) (blank : Int) (dmin dmax : ℚ) (t : ℚ) : Nat :=
  if bf = true ∧ t = (blank : ℚ) then 0
  else cvtStore (grayW bp) ((t - dmin) * (grayK bp : ℚ) / (dmax - dmin))

/-- The raster rows the decoder produces, as a pure function of the
sample list: successive rows of w samples, each mapped pointwise. -/
def grayRowsSpec (g : ℚ → Nat) (w : Nat) : Nat → List ℚ → List (List Nat)
  | 0, _ => []
  | i + 1, vs => (vs.take w).map g :: grayRowsSpec g w i (vs.drop w)

/-- Rounding up to the next multiple of 2880 bytes, as the demuxer
computes it with truncating int64 division. -/
def roundUp2880 (x : Int) : Int := ((x + 2879).tdiv 2880) * 2880

/-- Product of a dimension list. -/
def prodList : List Int → Int
  | [] => 1
  | d :: l => d * prodList l

/-- One encoded sample: the biased big-endian pair for 16-bit output,
the bare byte otherwise. -/
def encSample (ebp : Int) (r : Nat) : List Nat :=
  if ebp = 16 then putBE16sub 32768 r else [r]

/-- The raw value the decoder reads back from one encoded sample. -/
def encPhi (ebp : Int) (r : Nat) : ℚ :=
  if ebp = 16 then (r : ℚ) - 32768 else (r : ℚ)

/-! A concrete well-formed grayscale packet used as a witness input:
SIMPLE, BITPIX = 8, NAXIS = 2, NAXIS1 = 3, NAXIS2 = 1, END, padded to 36
cards, data segment [0, 1, 2]. -/

/-- Witness card "SIMPLE  = T". -/
def wCard0 : List Nat := padCard [83, 73, 77, 80, 76, 69, 32, 32, 61, 32, 84]

/-- Witness card "BITPIX  = 8". -/
def wCard1 : List Nat := padCard [66, 73, 84, 80, 73, 88, 32, 32, 61, 32, 56, 32]

/-- Witness card "NAXIS   = 2". -/
def wCard2 : List Nat := padCard [78, 65, 88, 73, 83, 32, 32, 32, 61, 32, 50, 32]

/-- Witness card "NAXIS1  = 3". -/
def wCard3 : List Nat := padCard [78, 65, 88, 73, 83, 49, 32, 32, 61, 32, 51, 32]

/-- Witness card "NAXIS2  = 1". -/
def wCard4 : List Nat := padCard [78, 65, 88, 73, 83, 50, 32, 32, 61, 32, 49, 32]

/-- Witness packet tail: padding cards and the data segment. -/
def wRest6 : List Nat := List.replicate 2400 32 ++ [0, 1, 2]

/-- Witness packet from the END card on. -/
def wRest5 : List Nat := endCard ++ wRest6

/-- Witness packet suffixes per card boundary. -/
def wRest4 : List Nat := wCard4 ++ wRest5

/-- Witness packet suffix at NAXIS1. -/
def wRest3 : List Nat := wCard3 ++ wRest4

/-- Witness packet suffix at NAXIS. -/
def wRest2 : List Nat := wCard2 ++ wRest3

/-- Witness packet suffix at BITPIX. -/
def wRest1 : List Nat := wCard1 ++ wRest2

/-- The complete witness packet. -/
def wBuf : List Nat := wCard0 ++ wRest1

attribute [irreducible] wBuf wRest1 wRest2 wRest3 wRest4 wRest5 wRest6

/-- Dropping an 80-byte card from the front of a buffer. -/
theorem drop_card (c l : List Nat) (h : c.length = 80) : (c ++ l).drop 80 = l := by
  have := List.drop_left c l
  rwa [h] at this

/-- Dropping the padding block from the front of a buffer. -/
theorem drop_replicate_append (n a : Nat) (l : List Nat) :
    (List.replicate n a ++ l).drop n = l := by
  have := List.drop_left (List.replicate n a) l
  rwa [List.length_replicate] at this


theorem wCard0_len : wCard0.length = 80 := by norm_num [wCard0, padCard]

theorem wCard1_len : wCard1.length = 80 := by norm_num [wCard1, padCard]

theorem wCard2_len : wCard2.length = 80 := by norm_num [wCard2, padCard]

theorem wCard3_len : wCard3.length = 80 := by norm_num [wCard3, padCard]

theorem wCard4_len : wCard4.length = 80 := by norm_num [wCard4, padCard]

theorem endCard_len : endCard.length = 80 := by norm_num [endCard]

theorem wRest6_len : wRest6.length = 2403 := by
  unfold wRest6
  rw [List.length_append, List.length_replicate]
  rfl

theorem wRest5_len : wRest5.length = 2483 := by
  unfold wRest5
  rw [List.length_append, endCard_len, wRest6_len]

theorem wRest4_len : wRest4.length = 2563 := by
  unfold wRest4
  rw [List.length_append, wCard4_len, wRest5_len]

theorem wRest3_len : wRest3.length = 2643 := by
  unfold wRest3
  rw [List.length_append, wCard3_len, wRest4_len]

theorem wRest2_len : wRest2.length = 2723 := by
  unfold wRest2
  rw [List.length_append, wCard2_len, wRest3_len]

theorem wRest1_len : wRest1.length = 2803 := by
  unfold wRest1
  rw [List.length_append, wCard1_len, wRest2_len]

theorem wBuf_len : wBuf.length = 2883 := by
  unfold wBuf
  rw [List.length_append, wCard0_len, wRest1_len]

theorem wDrop0 : wBuf.drop 80 = wRest1 := by unfold wBuf; exact drop_card _ _ wCard0_len

theorem wDrop1 : wRest1.drop 80 = wRest2 := by unfold wRest1; exact drop_card _ _ wCard1_len

theorem wDrop2 : wRest2.drop 80 = wRest3 := by unfold wRest2; exact drop_card _ _ wCard2_len

theorem wDrop3 : wRest3.drop 80 = wRest4 := by unfold wRest3; exact drop_card _ _ wCard3_len

theorem wDrop4 : wRest4.drop 80 = wRest5 := by unfold wRest4; exact drop_card _ _ wCard4_len

theorem wDrop5 : wRest5.drop 80 = wRest6 := by unfold wRest5; exact drop_card _ _ endCard_len

theorem wDrop6 : wRest6.drop 2400 = [0, 1, 2] := by
  unfold wRest6; exact drop_replicate_append _ _ _

theorem wScan0g (l : List Nat) : sscanfSIMPLE (wCard0 ++ l) = some 84 := by
  norm_num [wCard0, padCard, sscanfSIMPLE, scanKeywordEq, scanLit, skipWS, isWS]

theorem wScan0 : sscanfSIMPLE wBuf = some 84 := by unfold wBuf; exact wScan0g _

theorem wScan1g (l : List Nat) : sscanfKwInt [66, 73, 84, 80, 73, 88] (wCard1 ++ l) = some 8 := by
  norm_num [wCard1, padCard, sscanfKwInt, scanKeywordEq, scanLit, skipWS,
    isWS, scanInt, scanUInt, scanDigitsAux]

theorem wScan1 : sscanfKwInt [66, 73, 84, 80, 73, 88] wRest1 = some 8 := by
  unfold wRest1; exact wScan1g _

theorem wScan2g (l : List Nat) : sscanfKwInt [78, 65, 88, 73, 83] (wCard2 ++ l) = some 2 := by
  norm_num [wCard2, padCard, sscanfKwInt, scanKeywordEq, scanLit, skipWS,
    isWS, scanInt, scanUInt, scanDigitsAux]

theorem wScan2 : sscanfKwInt [78, 65, 88, 73, 83] wRest2 = some 2 := by
  unfold wRest2; exact wScan2g _

theorem wScan3g (l : List Nat) : sscanfNAXISn (wCard3 ++ l) = some (1, 3) := by
  norm_num [wCard3, padCard, sscanfNAXISn, scanLit, skipWS,
    isWS, scanInt, scanUInt, scanDigitsAux]

theorem wScan3 : sscanfNAXISn wRest3 = some (1, 3) := by unfold wRest3; exact wScan3g _

theorem wScan4g (l : List Nat) : sscanfNAXISn (wCard4 ++ l) = some (2, 1) := by
  norm_num [wCard4, padCard, sscanfNAXISn, scanLit, skipWS,
    isWS, scanInt, scanUInt, scanDigitsAux]

theorem wScan4 : sscanfNAXISn wRest4 = some (2, 1) := by unfold wRest4; exact wScan4g _

theorem wScan5g (l : List Nat) : hasPre endPre (endCard ++ l) = true := by
  norm_num [endCard, endPre, hasPre, List.isPrefixOf]

theorem wScan5 : hasPre endPre wRest5 = true := by unfold wRest5; exact wScan5g _

theorem wFill : fill_data_min_max 8 false 0 3 1 [0, 1, 2] = some (0, 2) := by
  norm_num [fill_data_min_max, fillRows, fillRow, readRaw, mmUpd, DBL_MIN, DBL_MAX]

/-- Dropping the END card and the padding block together. -/
theorem wDrop56 : List.drop 2480 wRest5 = [0, 1, 2] := by
  rw [show (2480 : Nat) = 80 + 2400 from rfl]
  rw [← List.drop_drop, wDrop5, wDrop6]

/-- Parse of the witness packet. -/
theorem wParse : fits_read_header wBuf =
    .ok ⟨{ simple := 84, bitpix := 8, naxis := 2, naxisn := [3, 1, 0],
           data_min := 0, data_max := 2 }, [0, 1, 2], 6, 30⟩ := by
  rw [fits_read_header]
  simp only [wBuf_len, wScan0, wDrop0, wRest1_len, wScan1, wDrop1, wRest2_len, wScan2, wDrop2]
  norm_num [naxisLoop, wRest3_len, wScan3, wDrop3, wRest4_len, wScan4, wDrop4, wRest5_len]
  rw [show (2483 : Nat) = 2482 + 1 from rfl, freeformLoop]
  rw [wScan5]
  norm_num [wRest5_len, wDrop56, show ((8 : Nat) >>> 3) = 1 from rfl,
    show Int.toNat 3 = 3 from rfl, wFill]

/-! ## Correspondence between the byte-level loops and sample lists -/

/-- Splitting a readSamples run. -/
theorem readSamples_add (bp : Int) (m n : Nat) :
    ∀ bs, readSamples bp (m + n) bs =
      match readSamples bp m bs with
      | none => none
      | some (vs, r) =>
        match readSamples bp n r with
        | none => none
        | some (ws, r2) => some (vs ++ ws, r2) := by
  induction m with
  | zero =>
    intro bs
    rw [Nat.zero_add]
    simp only [readSamples]
    cases readSamples bp n bs with
    | none => rfl
    | some p => rfl
  | succ m ih =>
    intro bs
    rw [Nat.succ_add]
    simp only [readSamples]
    cases hr : readRaw bp bs with
    | none => rfl
    | some p =>
      obtain ⟨t, r⟩ := p
      dsimp only
      rw [ih r]
      cases readSamples bp m r with
      | none => rfl
      | some q =>
        obtain ⟨vs, r2⟩ := q
        dsimp only
        cases readSamples bp n r2 with
        | none => rfl
        | some u => rfl

/-- readSamples returns exactly n samples. -/
theorem readSamples_length (bp : Int) :
    ∀ (n : Nat) (bs vs rest), readSamples bp n bs = some (vs, rest) → vs.length = n := by
  intro n
  induction n with
  | zero =>
    intro bs vs rest h
    simp only [readSamples, Option.some.injEq, Prod.mk.injEq] at h
    obtain ⟨rfl, rfl⟩ := h
    rfl
  | succ n ih =>
    intro bs vs rest h
    cases hr : readRaw bp bs with
    | none =>
      simp only [readSamples, hr] at h
      exact Option.noConfusion h
    | some p =>
      obtain ⟨t, r⟩ := p
      simp only [readSamples, hr] at h
      cases hs : readSamples bp n r with
      | none =>
        rw [hs] at h
        exact Option.noConfusion h
      | some q =>
        obtain ⟨ts, r2⟩ := q
        rw [hs] at h
        simp only [Option.some.injEq, Prod.mk.injEq] at h
        obtain ⟨h1, h2⟩ := h
        subst h1
        subst h2
        simp [ih r ts r2 hs]

/-- The inner fill loop folds mmUpd over the row samples. -/
theorem fillRow_eq (bp : Int) (bf : Bool) (blank : Int) :
    ∀ (w : Nat) (bs : List Nat) (vs : List ℚ) (rest : List Nat) (mm : ℚ × ℚ),
      readSamples bp w bs = some (vs, rest) →
      fillRow bp bf blank w bs mm = some (vs.foldl (mmUpd bf blank) mm, rest) := by
  intro w
  induction w with
  | zero =>
    intro bs vs rest mm h
    simp only [readSamples, Option.some.injEq, Prod.mk.injEq] at h
    obtain ⟨rfl, rfl⟩ := h
    rfl
  | succ w ih =>
    intro bs vs rest mm h
    cases hr : readRaw bp bs with
    | none =>
      simp only [readSamples, hr] at h
      exact Option.noConfusion h
    | some p =>
      obtain ⟨t, r⟩ := p
      simp only [readSamples, hr] at h
      cases hs : readSamples bp w r with
      | none =>
        rw [hs] at h
        exact Option.noConfusion h
      | some q =>
        obtain ⟨ts, r2⟩ := q
        rw [hs] at h
        simp only [Option.some.injEq, Prod.mk.injEq] at h
        obtain ⟨h1, h2⟩ := h
        subst h1
        subst h2
        simp only [fillRow, hr, List.foldl_cons]
        exact ih r ts r2 (mmUpd bf blank mm t) hs

/-- The outer fill loop folds mmUpd over all h·w samples. -/
theorem fillRows_eq (bp : Int) (bf : Bool) (blank : Int) (w : Nat) :
    ∀ (h : Nat) (bs : List Nat) (vs : List ℚ) (rest : List Nat) (mm : ℚ × ℚ),
      readSamples bp (h * w) bs = some (vs, rest) →
      fillRows bp bf blank w h bs mm = some (vs.foldl (mmUpd bf blank) mm, rest) := by
  intro h
  induction h with
  | zero =>
    intro bs vs rest mm hr
    simp only [Nat.zero_mul, readSamples, Option.some.injEq, Prod.mk.injEq] at hr
    obtain ⟨rfl, rfl⟩ := hr
    rfl
  | succ h ih =>
    intro bs vs rest mm hr
    rw [Nat.succ_mul, Nat.add_comm, readSamples_add] at hr
    cases h1 : readSamples bp w bs with
    | none =>
      rw [h1] at hr
      exact Option.noConfusion hr
    | some p =>
      obtain ⟨vs1, r1⟩ := p
      rw [h1] at hr
      dsimp only at hr
      cases h2 : readSamples bp (h * w) r1 with
      | none =>
        rw [h2] at hr
        exact Option.noConfusion hr
      | some q =>
        obtain ⟨vs2, r2⟩ := q
        rw [h2] at hr
        simp only [Option.some.injEq, Prod.mk.injEq] at hr
        obtain ⟨hv, hrest⟩ := hr
        subst hv
        subst hrest
        simp only [fillRows, fillRow_eq bp bf blank w bs vs1 r1 mm h1]
        rw [ih r1 vs2 r2 _ h2, List.foldl_append]

/-- fill_data_min_max as a fold over the parsed samples. -/
theorem fill_data_min_max_eq (bp : Int) (bf : Bool) (blank : Int) (w h : Nat)
    (bs : List Nat) (vs : List ℚ) (rest : List Nat)
    (hr : readSamples bp (h * w) bs = some (vs, rest)) :
    fill_data_min_max bp bf blank w h bs =
      some (vs.foldl (mmUpd bf blank) (DBL_MAX, DBL_MIN)) := by
  rw [fill_data_min_max, fillRows_eq bp bf blank w h bs vs rest _ hr]
  rfl


theorem graySample_eq (bp : Int) (bf : Bool) (blank : Int) (dmin dmax : ℚ) (t : ℚ)
    (hne : dmax - dmin ≠ 0) :
    graySample bp bf blank dmin dmax t = some (graySpecFun bp bf blank dmin dmax t) := by
  by_cases hbl : bf = true ∧ t = (blank : ℚ)
  · rw [graySample, graySpecFun, if_pos hbl, if_pos hbl]
  · rw [graySample, graySpecFun, if_neg hbl, if_neg hbl, if_neg hne]


/-- One decoded row is the pointwise map of its samples. -/
theorem grayRow_eq (bp : Int) (bf : Bool) (blank : Int) (dmin dmax : ℚ)
    (hne : dmax - dmin ≠ 0) :
    ∀ (w : Nat) (bs : List Nat) (vs : List ℚ) (rest : List Nat),
      readSamples bp w bs = some (vs, rest) →
      grayRow bp bf blank dmin dmax w bs =
        some (vs.map (graySpecFun bp bf blank dmin dmax), rest) := by
  intro w
  induction w with
  | zero =>
    intro bs vs rest h
    simp only [readSamples, Option.some.injEq, Prod.mk.injEq] at h
    obtain ⟨rfl, rfl⟩ := h
    rfl
  | succ w ih =>
    intro bs vs rest h
    cases hr : readRaw bp bs with
    | none =>
      simp only [readSamples, hr] at h
      exact Option.noConfusion h
    | some p =>
      obtain ⟨t, r⟩ := p
      simp only [readSamples, hr] at h
      cases hs : readSamples bp w r with
      | none =>
        rw [hs] at h
        exact Option.noConfusion h
      | some q =>
        obtain ⟨ts, r2⟩ := q
        rw [hs] at h
        simp only [Option.some.injEq, Prod.mk.injEq] at h
        obtain ⟨h1, h2⟩ := h
        subst h1
        subst h2
        simp only [grayRow, hr, graySample_eq bp bf blank dmin dmax t hne,
          ih r ts r2 hs, List.map_cons]

/-- The decoded stream rows are grayRowsSpec of the sample list. -/
theorem grayRows_eq (bp : Int) (bf : Bool) (blank : Int) (dmin dmax : ℚ)
    (hne : dmax - dmin ≠ 0) (w : Nat) :
    ∀ (h : Nat) (bs : List Nat) (vs : List ℚ) (rest : List Nat),
      readSamples bp (h * w) bs = some (vs, rest) →
      grayRows bp bf blank dmin dmax w h bs =
        some (grayRowsSpec (graySpecFun bp bf blank dmin dmax) w h vs, rest) := by
  intro h
  induction h with
  | zero =>
    intro bs vs rest hr
    simp only [Nat.zero_mul, readSamples, Option.some.injEq, Prod.mk.injEq] at hr
    obtain ⟨rfl, rfl⟩ := hr
    rfl
  | succ h ih =>
    intro bs vs rest hr
    rw [Nat.succ_mul, Nat.add_comm, readSamples_add] at hr
    cases h1 : readSamples bp w bs with
    | none =>
      rw [h1] at hr
      exact Option.noConfusion hr
    | some p =>
      obtain ⟨vs1, r1⟩ := p
      rw [h1] at hr
      dsimp only at hr
      cases h2 : readSamples bp (h * w) r1 with
      | none =>
        rw [h2] at hr
        exact Option.noConfusion hr
      | some q =>
        obtain ⟨vs2, r2⟩ := q
        rw [h2] at hr
        simp only [Option.some.injEq, Prod.mk.injEq] at hr
        obtain ⟨hv, hrest⟩ := hr
        subst hv
        subst hrest
        have hlen := readSamples_length bp w bs vs1 r1 h1
        have htake : (vs1 ++ vs2).take w = vs1 := by
          rw [← hlen]
          exact List.take_left vs1 vs2
        have hdrop : (vs1 ++ vs2).drop w = vs2 := by
          rw [← hlen]
          exact List.drop_left vs1 vs2
        simp only [grayRows, grayRow_eq bp bf blank dmin dmax hne w bs vs1 r1 h1,
          ih r1 vs2 r2 h2, grayRowsSpec, htake, hdrop]

/-! ## Claim theorems: grayscale normalization (C1, C2, C3) -/

/-- C1 (amended): for every grayscale decode with raw bounds dmin/dmax
(scanned or header-derived) such that dmax ≠ dmin, every BLANK raw sample
produces output 0, and every other raw sample v produces the C truncation
toward zero (stored into the 8- or 16-bit destination), NOT the rounding, of
(v − dmin)·(2^bits_out − 1)/(dmax − dmin); the decoded stream rows are
written into the raster bottom-up. -/
theorem gray_decode_truncates (bp : Int) (bf : Bool) (blank : Int) (dmin dmax : ℚ)
    (w h : Nat) (bs : List Nat) (vs : List ℚ) (rest : List Nat)
    (hvs : readSamples bp (h * w) bs = some (vs, rest))
    (hne : dmax - dmin ≠ 0) :
    fits_decode_gray bp bf blank dmin dmax w h bs =
      some ((grayRowsSpec (graySpecFun bp bf blank dmin dmax) w h vs).reverse) := by
  rw [fits_decode_gray, grayRows_eq bp bf blank dmin dmax hne w h bs vs rest hvs]
  rfl

/-- Witness for gray_decode_truncates at BITPIX 8, samples [0,1,2],
bounds 0/2. -/
theorem gray_decode_truncates_witness :
    readSamples 8 (1 * 3) [0, 1, 2] = some ([0, 1, 2], []) ∧
    ((2 : ℚ) - 0 ≠ 0) ∧
    fits_decode_gray 8 false 0 0 2 3 1 [0, 1, 2] =
      some ((grayRowsSpec (graySpecFun 8 false 0 0 2) 3 1 [0, 1, 2]).reverse) := by
  have h1 : readSamples 8 (1 * 3) [0, 1, 2] = some ([0, 1, 2], []) := by
    norm_num [readSamples, readRaw]
  exact ⟨h1, by norm_num,
    gray_decode_truncates 8 false 0 0 2 3 1 [0, 1, 2] [0, 1, 2] [] h1 (by norm_num)⟩

/-- C1 counterexample to the claim as stated: decoding BITPIX 8 samples
[0,1,2] (scan gives raw_min 0, raw_max 2) outputs 127 for the sample
v = 1, but the claimed formula round((v − 0)·255/(2 − 0)) = round(127.5)
gives 128. -/
theorem gray_decode_not_round :
    grayPipelineScan 8 false 0 3 1 [0, 1, 2] = some [[0, 127, 255]] ∧
    round (((1 : ℚ) - 0) * 255 / (2 - 0)) = 128 ∧ (127 : ℤ) ≠ 128 := by
  refine ⟨?_, ?_, by decide⟩
  · norm_num [grayPipelineScan, fill_data_min_max, fillRows, fillRow, readRaw, mmUpd,
      DBL_MIN, DBL_MAX, fits_decode_gray, grayRows, grayRow, graySample, grayK, grayW,
      cvtStore, truncQ]
    decide
  · rw [round_eq]
    norm_num

/-- C2 (code-bug evidence): a flat grayscale image (both samples 5, no
DATAMIN/DATAMAX) scans to data_min = data_max = 5, and the decoder then
divides by data_max − data_min = 0 WITHOUT a guard: the output is
NaN-undefined (`none`), not the all-zero raster the specification
defines. -/
theorem flat_image_unguarded_division :
    fill_data_min_max 8 false 0 2 1 [5, 5] = some (5, 5) ∧
    grayPipelineScan 8 false 0 2 1 [5, 5] = none := by
  constructor
  · norm_num [fill_data_min_max, fillRows, fillRow, readRaw, mmUpd, DBL_MIN, DBL_MAX]
  · norm_num [grayPipelineScan, fill_data_min_max, fillRows, fillRow, readRaw, mmUpd,
      DBL_MIN, DBL_MAX, fits_decode_gray, grayRows, grayRow, graySample, grayK, grayW]

/-- C3 (code-bug evidence): the data_max accumulator of fill_data_min_max
is initialized to DBL_MIN = 2^(−1022), the smallest POSITIVE double, not
to −∞/−DBL_MAX: scanning the single 16-bit sample −5 returns
data_max = DBL_MIN instead of the true maximum −5 (any all-negative image
gets a wrong data_max). -/
theorem scan_max_initialized_to_dbl_min :
    fill_data_min_max 16 false 0 1 1 [255, 251] = some (-5, DBL_MIN) ∧
    DBL_MIN = 1 / 2^1022 ∧ DBL_MIN ≠ (-5 : ℚ) := by
  refine ⟨?_, rfl, by norm_num [DBL_MIN]⟩
  norm_num [fill_data_min_max, fillRows, fillRow, readRaw, toSigned, mmUpd, DBL_MIN, DBL_MAX]


/-! ## Claim theorems: demuxer size computation (C4) -/



theorem prodList_pos : ∀ (l : List Int), (∀ d ∈ l, 0 < d) → 0 < prodList l := by
  intro l
  induction l with
  | nil => intro _; norm_num [prodList]
  | cons d l ih =>
    intro hp
    have hd : 0 < d := hp d (List.mem_cons_self d l)
    have hl : 0 < prodList l := ih (fun x hx => hp x (List.mem_cons_of_mem d hx))
    exact mul_pos hd hl

/-- The dimension loop succeeds and returns the running product when the
final product stays within LLONG_MAX. -/
theorem findSizeLoop_ok : ∀ (l : List Int) (ds : Int), 0 < ds → (∀ d ∈ l, 0 < d) →
    ds * prodList l ≤ LLONG_MAX → findSizeLoop l ds = .ok (ds * prodList l) := by
  intro l
  induction l with
  | nil =>
    intro ds _ _ _
    simp [findSizeLoop, prodList]
  | cons d l ih =>
    intro ds hds hp hb
    have hd : 0 < d := hp d (List.mem_cons_self d l)
    have hl : 0 < prodList l := prodList_pos l (fun x hx => hp x (List.mem_cons_of_mem d hx))
    have hdd : 0 < ds * d := mul_pos hds hd
    have hstep : ds * d * prodList l ≤ LLONG_MAX := by
      have h2 : ds * prodList (d :: l) = ds * d * prodList l := by
        rw [prodList]
        ring
      rwa [h2] at hb
    have hdL : ds * d ≤ LLONG_MAX := by
      calc ds * d ≤ ds * d * prodList l := le_mul_of_one_le_right (le_of_lt hdd) hl
        _ ≤ LLONG_MAX := hstep
    have hnotlt : ¬ LLONG_MAX.tdiv ds < d := by
      rw [Int.tdiv_eq_ediv (by norm_num [LLONG_MAX]) (le_of_lt hds), not_lt]
      rw [Int.le_ediv_iff_mul_le hds]
      calc d * ds = ds * d := mul_comm d ds
        _ ≤ LLONG_MAX := hdL
    rw [findSizeLoop, if_neg hnotlt, ih (ds * d) hdd
      (fun x hx => hp x (List.mem_cons_of_mem d hx)) hstep]
    rw [prodList]
    ring_nf

/-- All checks of the post-loop tail pass when the total fits. -/
theorem find_size_tail_ok (bitpix pcount gcount header_size ds0 : Int)
    (hds0 : 0 < ds0) (hpc : 0 ≤ pcount) (hgc : 1 ≤ gcount) (_hhs : 0 ≤ header_size)
    (hbp : 1 ≤ ((bitpix.natAbs >>> 3 : Nat) : Int))
    (htot : (ds0 + pcount) * (((bitpix.natAbs >>> 3 : Nat) : Int) * gcount) ≤
      LLONG_MAX - 2879)
    (hfit : roundUp2880 header_size ≤ LLONG_MAX -
      roundUp2880 ((ds0 + pcount) * (((bitpix.natAbs >>> 3 : Nat) : Int) * gcount))) :
    find_size_tail bitpix pcount gcount header_size (.ok ds0) =
      .ok (roundUp2880 header_size +
        roundUp2880 ((ds0 + pcount) * (((bitpix.natAbs >>> 3 : Nat) : Int) * gcount))) := by
  have ht : (1 : Int) ≤ ((bitpix.natAbs >>> 3 : Nat) : Int) * gcount :=
    one_le_mul_of_one_le_of_one_le hbp hgc
  have hds1 : 0 < ds0 + pcount := by omega
  have htotal : (0 : Int) < (ds0 + pcount) * (((bitpix.natAbs >>> 3 : Nat) : Int) * gcount) :=
    mul_pos hds1 (by omega)
  have htL : (ds0 + pcount) * (((bitpix.natAbs >>> 3 : Nat) : Int) * gcount) ≤ LLONG_MAX := by
    omega
  have hself : ds0 + pcount ≤ (ds0 + pcount) * (((bitpix.natAbs >>> 3 : Nat) : Int) * gcount) :=
    le_mul_of_one_le_right (le_of_lt hds1) ht
  rw [find_size_tail]
  dsimp only
  rw [if_neg (by omega : ¬ LLONG_MAX - ds0 < pcount)]
  have htchk : ¬ ((ds0 + pcount ≠ 0) ∧
      LLONG_MAX.tdiv (ds0 + pcount) < ((bitpix.natAbs >>> 3 : Nat) : Int) * gcount) := by
    rintro ⟨-, hlt⟩
    rw [Int.tdiv_eq_ediv (by norm_num [LLONG_MAX]) (le_of_lt hds1)] at hlt
    rw [lt_iff_not_ge] at hlt
    apply hlt
    rw [ge_iff_le, Int.le_ediv_iff_mul_le hds1]
    calc ((bitpix.natAbs >>> 3 : Nat) : Int) * gcount * (ds0 + pcount)
        = (ds0 + pcount) * (((bitpix.natAbs >>> 3 : Nat) : Int) * gcount) := by ring
      _ ≤ LLONG_MAX := htL
  rw [if_neg htchk]
  rw [if_neg htotal.ne']
  rw [if_neg (by omega :
    ¬ LLONG_MAX - (ds0 + pcount) * (((bitpix.natAbs >>> 3 : Nat) : Int) * gcount) < 2879)]
  have hfchk : ¬ (LLONG_MAX -
      (((ds0 + pcount) * (((bitpix.natAbs >>> 3 : Nat) : Int) * gcount) + 2879).tdiv 2880) * 2880 <
      ((header_size + 2879).tdiv 2880) * 2880) := by
    rw [roundUp2880, roundUp2880] at hfit
    omega
  rw [if_neg hfchk, roundUp2880, roundUp2880]

/-- C4 (amended): for every header with positive dimensions, nonnegative
PCOUNT, positive GCOUNT, |BITPIX|/8 ≥ 1, and a total that fits int64,
find_size computes data_bytes = (∏dims + PCOUNT) · (|BITPIX|/8 · GCOUNT)
(for random groups ∏dims[1..]; GCOUNT multiplies the PCOUNT term too, not
only the dimension product as the claim stated), rounds it and the header
size up to 2880-byte blocks and returns their sum; every multiplication
is guarded against int64 overflow before it is performed. -/
theorem find_size_calc_ok (bitpix naxis : Int) (naxisn : List Int) (groups : Bool)
    (pcount gcount header_size : Int)
    (hnx : naxis = (naxisn.length : Int))
    (hlen : if groups then 2 ≤ naxisn.length else 1 ≤ naxisn.length)
    (hpos : ∀ d ∈ naxisn, 0 < d)
    (hpc : 0 ≤ pcount) (hgc : 1 ≤ gcount) (hhs : 0 ≤ header_size)
    (hbp : 1 ≤ ((bitpix.natAbs >>> 3 : Nat) : Int))
    (htot : (prodList (if groups then naxisn.drop 1 else naxisn) + pcount) *
      (((bitpix.natAbs >>> 3 : Nat) : Int) * gcount) ≤ LLONG_MAX - 2879)
    (hfit : roundUp2880 header_size ≤ LLONG_MAX -
      roundUp2880 ((prodList (if groups then naxisn.drop 1 else naxisn) + pcount) *
        (((bitpix.natAbs >>> 3 : Nat) : Int) * gcount))) :
    find_size_calc bitpix naxis naxisn groups pcount gcount header_size =
      .ok (roundUp2880 header_size +
        roundUp2880 ((prodList (if groups then naxisn.drop 1 else naxisn) + pcount) *
          (((bitpix.natAbs >>> 3 : Nat) : Int) * gcount))) := by
  have hposd : ∀ d ∈ (if groups then naxisn.drop 1 else naxisn), 0 < d := by
    intro d hd
    apply hpos
    revert hd
    cases groups with
    | false => exact fun hd => hd
    | true => exact fun hd => List.mem_of_mem_drop hd
  have hprod : 0 < prodList (if groups then naxisn.drop 1 else naxisn) :=
    prodList_pos _ hposd
  have hprodL : prodList (if groups then naxisn.drop 1 else naxisn) ≤ LLONG_MAX := by
    have h2 : prodList (if groups then naxisn.drop 1 else naxisn) + pcount ≤
        (prodList (if groups then naxisn.drop 1 else naxisn) + pcount) *
          (((bitpix.natAbs >>> 3 : Nat) : Int) * gcount) :=
      le_mul_of_one_le_right (by omega) (one_le_mul_of_one_le_of_one_le hbp hgc)
    omega
  have hloop : findSizeLoop (if groups then naxisn.drop 1 else naxisn) 1 =
      .ok (prodList (if groups then naxisn.drop 1 else naxisn)) := by
    have h3 := findSizeLoop_ok (if groups then naxisn.drop 1 else naxisn) 1 one_pos hposd
      (by rw [one_mul]; exact hprodL)
    rwa [one_mul] at h3
  have hstep1 : (if groups then findSizeLoop (naxisn.drop 1) (if 1 < naxis then 1 else 0)
      else if naxis ≠ 0 then findSizeLoop naxisn 1 else Except.ok 0) =
      Except.ok (prodList (if groups then naxisn.drop 1 else naxisn)) := by
    cases groups with
    | true =>
      have h1 : 1 < naxis := by
        rw [hnx]
        exact_mod_cast (by simpa using hlen : 2 ≤ naxisn.length)
      simp only [if_true] at hloop ⊢
      rw [if_pos h1]
      exact hloop
    | false =>
      have h0 : naxis ≠ 0 := by
        rw [hnx]
        have h4 : 1 ≤ naxisn.length := by simpa using hlen
        exact_mod_cast Nat.one_le_iff_ne_zero.mp h4
      simp only [Bool.false_eq_true, if_false] at hloop ⊢
      rw [if_pos h0]
      exact hloop
  rw [find_size_calc, hstep1]
  exact find_size_tail_ok bitpix pcount gcount header_size _ hprod hpc hgc hhs hbp htot hfit

/-- Witness for find_size_calc_ok: BITPIX 16, dims [4,3], PCOUNT 0,
GCOUNT 1, header 2880 → 2880 + 2880. -/
theorem find_size_calc_ok_witness :
    find_size_calc 16 2 [4, 3] false 0 1 2880 =
      .ok (roundUp2880 2880 +
        roundUp2880 ((prodList (if false then ([4, 3] : List Int).drop 1 else [4, 3]) + 0) *
          ((((16 : Int).natAbs >>> 3 : Nat) : Int) * 1))) := by
  apply find_size_calc_ok 16 2 [4, 3] false 0 1 2880
  · norm_num
  · norm_num
  · intro d hd
    fin_cases hd <;> norm_num
  · norm_num
  · norm_num
  · norm_num
  · decide
  · decide
  · decide

/-- C4 counterexample: with GCOUNT = 2 and PCOUNT = 1500, dims [1440],
BITPIX 8, find_size returns header + 8640 = 11520 (GCOUNT multiplies the
PCOUNT term), while the claimed formula (∏dims·GCOUNT + PCOUNT)·ebytes
rounds to 5760, total 8640. -/
theorem find_size_gcount_cex :
    find_size_calc 8 1 [1440] false 1500 2 2880 = .ok 11520 ∧
    (2880 : Int) + ((((1440 * 2 + 1500) * 1 : Int) + 2879).tdiv 2880) * 2880 = 8640 ∧
    (11520 : Int) ≠ 8640 := by
  refine ⟨by rfl, by decide, by decide⟩

/-- freeformCard leaves the structural header fields unchanged, and only
sets rgb when the card starts with CTYPE3  = 'RGB. -/
theorem freeformCard_fields (hdr : FITSHeader) (mF xF : Bool) (rem : List Nat)
    (h3 : FITSHeader) (m3 x3 : Bool)
    (h : freeformCard hdr mF xF rem = .ok (h3, m3, x3)) :
    h3.naxis = hdr.naxis ∧ h3.bitpix = hdr.bitpix ∧ h3.naxisn = hdr.naxisn ∧
    h3.simple = hdr.simple ∧ h3.xtension = hdr.xtension ∧
    (h3.rgb = true → hdr.rgb = true ∨ hasPre ctype3RgbPre rem = true) := by
  unfold freeformCard at h
  cases hb : sscanfKwInt [66, 76, 65, 78, 75] rem with
  | some t =>
    simp only [hb, Except.ok.injEq, Prod.mk.injEq] at h
    obtain ⟨e1, e2, e3⟩ := h
    subst e1; subst e2; subst e3
    exact ⟨rfl, rfl, rfl, rfl, rfl, fun hr => Or.inl hr⟩
  | none =>
    simp only [hb] at h
    cases hs : sscanfKwFloat [66, 83, 67, 65, 76, 69] rem with
    | some d =>
      simp only [hs, Except.ok.injEq, Prod.mk.injEq] at h
      obtain ⟨e1, e2, e3⟩ := h
      subst e1; subst e2; subst e3
      exact ⟨rfl, rfl, rfl, rfl, rfl, fun hr => Or.inl hr⟩
    | none =>
      simp only [hs] at h
      cases hz : sscanfKwFloat [66, 90, 69, 82, 79] rem with
      | some d =>
        simp only [hz, Except.ok.injEq, Prod.mk.injEq] at h
        obtain ⟨e1, e2, e3⟩ := h
        subst e1; subst e2; subst e3
        exact ⟨rfl, rfl, rfl, rfl, rfl, fun hr => Or.inl hr⟩
      | none =>
        simp only [hz] at h
        cases hx : sscanfKwFloat [68, 65, 84, 65, 77, 65, 88] rem with
        | some d =>
          simp only [hx, Except.ok.injEq, Prod.mk.injEq] at h
          obtain ⟨e1, e2, e3⟩ := h
          subst e1; subst e2; subst e3
          exact ⟨rfl, rfl, rfl, rfl, rfl, fun hr => Or.inl hr⟩
        | none =>
          simp only [hx] at h
          cases hn : sscanfKwFloat [68, 65, 84, 65, 77, 73, 78] rem with
          | some d =>
            simp only [hn, Except.ok.injEq, Prod.mk.injEq] at h
            obtain ⟨e1, e2, e3⟩ := h
            subst e1; subst e2; subst e3
            exact ⟨rfl, rfl, rfl, rfl, rfl, fun hr => Or.inl hr⟩
          | none =>
            simp only [hn] at h
            by_cases hc : hasPre ctype3RgbPre rem = true
            · rw [if_pos hc] at h
              by_cases hg : hdr.naxis ≠ 3 ∨ (hdr.naxisn.getD 2 0 ≠ 3 ∧ hdr.naxisn.getD 2 0 ≠ 4)
              · rw [if_pos hg] at h; exact Except.noConfusion h
              · rw [if_neg hg] at h
                simp only [Except.ok.injEq, Prod.mk.injEq] at h
                obtain ⟨e1, e2, e3⟩ := h
                subst e1; subst e2; subst e3
                exact ⟨rfl, rfl, rfl, rfl, rfl, fun _ => Or.inr hc⟩
            · rw [if_neg hc] at h
              simp only [Except.ok.injEq, Prod.mk.injEq] at h
              obtain ⟨e1, e2, e3⟩ := h
              subst e1; subst e2; subst e3
              exact ⟨rfl, rfl, rfl, rfl, rfl, fun hr => Or.inl hr⟩

/-- Invariant of the free-form card loop: on success it has consumed k
complete cards, the END card is at the stopping point, the mandatory
header fields are unchanged, and rgb can have become true only through a
CTYPE3 = 'RGB card at an 80-byte-aligned offset. -/
theorem freeformLoop_inv : ∀ (fuel : Nat) (hdr : FITSHeader) (mF xF : Bool)
    (rem : List Nat) (lines : Nat) (h2 : FITSHeader) (m2 x2 : Bool)
    (rem2 : List Nat) (lines2 : Nat),
    freeformLoop fuel hdr mF xF rem lines = .ok (h2, m2, x2, rem2, lines2) →
    80 ≤ rem.length →
    ∃ k : Nat, lines2 = lines + k ∧ rem2 = rem.drop (80 * k) ∧
      80 * k + 80 ≤ rem.length ∧ hasPre endPre rem2 = true ∧
      h2.naxis = hdr.naxis ∧ h2.bitpix = hdr.bitpix ∧ h2.naxisn = hdr.naxisn ∧
      h2.simple = hdr.simple ∧ h2.xtension = hdr.xtension ∧
      (h2.rgb = true → hdr.rgb = true ∨
        ∃ j, hasPre ctype3RgbPre (rem.drop (80 * j)) = true) := by
  intro fuel
  induction fuel with
  | zero =>
    intro hdr mF xF rem lines h2 m2 x2 rem2 lines2 h _
    exact Except.noConfusion h
  | succ n ih =>
    intro hdr mF xF rem lines h2 m2 x2 rem2 lines2 h hlen
    rw [freeformLoop] at h
    by_cases hend : hasPre endPre rem = true
    · rw [if_pos hend] at h
      simp only [Except.ok.injEq, Prod.mk.injEq] at h
      obtain ⟨e1, e2, e3, e4, e5⟩ := h
      subst e1; subst e2; subst e3; subst e4; subst e5
      exact ⟨0, by omega, by simp, by omega, hend, rfl, rfl, rfl, rfl, rfl,
        fun hr => Or.inl hr⟩
    · rw [if_neg hend] at h
      cases hc : freeformCard hdr mF xF rem with
      | error e => simp only [hc] at h; exact Except.noConfusion h
      | ok t =>
        obtain ⟨h3, m3, x3⟩ := t
        simp only [hc] at h
        by_cases hl : (rem.drop 80).length < 80
        · rw [if_pos hl] at h; exact Except.noConfusion h
        · rw [if_neg hl] at h
          obtain ⟨k, hk1, hk2, hk3, hk4, hk5, hk6, hk7, hk8, hk9, hk10⟩ :=
            ih h3 m3 x3 (rem.drop 80) (lines + 1) h2 m2 x2 rem2 lines2 h (by omega)
          obtain ⟨f1, f2, f3, f4, f5, f6⟩ := freeformCard_fields hdr mF xF rem h3 m3 x3 hc
          have hld : (rem.drop 80).length = rem.length - 80 := by simp
          refine ⟨k + 1, by omega, ?_, by omega, hk4, by rw [hk5, f1], by rw [hk6, f2],
            by rw [hk7, f3], by rw [hk8, f4], by rw [hk9, f5], ?_⟩
          · rw [hk2, List.drop_drop]
            have e : 80 + 80 * k = 80 * (k + 1) := by ring
            rw [e]
          · intro hr
            rcases hk10 hr with h' | ⟨j, hj⟩
            · rcases f6 h' with h'' | hpre
              · exact Or.inl h''
              · refine Or.inr ⟨0, ?_⟩
                simpa using hpre
            · refine Or.inr ⟨j + 1, ?_⟩
              rw [List.drop_drop] at hj
              have e : 80 * (j + 1) = 80 + 80 * j := by ring
              rw [e]
              exact hj

/-- Invariant of the NAXISn card loop: it consumes exactly c cards, each
scanning as NAXIS(i+j+1) = dim, and multiplies the scanned dims into the
wrapping uint64 size accumulator. -/
theorem naxisLoop_inv : ∀ (c i : Nat) (rem : List Nat) (nxs : List Int)
    (size lines : Nat) (nxs2 : List Int) (size2 : Nat) (rem2 : List Nat) (lines2 : Nat),
    naxisLoop c i rem nxs size lines = .ok (nxs2, size2, rem2, lines2) →
    lines2 = lines + c ∧ rem2 = rem.drop (80 * c) ∧ 80 * c ≤ rem.length ∧
    ∃ vdims : List Int, vdims.length = c ∧
      (∀ j, j < c → sscanfNAXISn (rem.drop (80 * j)) =
        some ((i : Int) + (j : Int) + 1, vdims.getD j 0)) ∧
      size2 = vdims.foldl (fun s v => (s * ((v.emod (2^64)).toNat)) % 2^64) size := by
  intro c
  induction c with
  | zero =>
    intro i rem nxs size lines nxs2 size2 rem2 lines2 h
    simp only [naxisLoop, Except.ok.injEq, Prod.mk.injEq] at h
    obtain ⟨e1, e2, e3, e4⟩ := h
    subst e1; subst e2; subst e3; subst e4
    exact ⟨by omega, by simp, by omega, [], rfl, fun j hj => absurd hj (by omega), rfl⟩
  | succ n ih =>
    intro i rem nxs size lines nxs2 size2 rem2 lines2 h
    rw [naxisLoop] at h
    by_cases hl : rem.length < 80
    · rw [if_pos hl] at h; exact Except.noConfusion h
    · rw [if_neg hl] at h
      cases hs : sscanfNAXISn rem with
      | none => simp only [hs] at h; exact Except.noConfusion h
      | some t =>
        obtain ⟨dim_no, v⟩ := t
        simp only [hs] at h
        by_cases hd : dim_no ≠ (i : Int) + 1
        · rw [if_pos hd] at h; exact Except.noConfusion h
        · rw [if_neg hd] at h
          push_neg at hd
          obtain ⟨k1, k2, k3, vdims, kv1, kv2, kv3⟩ :=
            ih (i + 1) (rem.drop 80) (nxs.set i v)
              ((size * ((v.emod (2^64)).toNat)) % 2^64) (lines + 1)
              nxs2 size2 rem2 lines2 h
          have hld : (rem.drop 80).length = rem.length - 80 := by simp
          refine ⟨by omega, ?_, by omega, v :: vdims, by simp [kv1], ?_, ?_⟩
          · rw [k2, List.drop_drop]
            have e : 80 + 80 * n = 80 * (n + 1) := by ring
            rw [e]
          · intro j hj
            cases j with
            | zero =>
              simp only [Nat.mul_zero, List.drop_zero, Nat.cast_zero, add_zero]
              rw [show ((v :: vdims).getD 0 0) = v from rfl, hs, hd]
            | succ m =>
              have hm : m < n := by omega
              have hsc := kv2 m hm
              rw [List.drop_drop] at hsc
              have e : 80 * (m + 1) = 80 + 80 * m := by ring
              rw [e, show ((v :: vdims).getD (m + 1) 0) = vdims.getD m 0 from rfl]
              have ec : ((i + 1 : Nat) : Int) + (m : Int) + 1
                  = (i : Int) + ((m + 1 : Nat) : Int) + 1 := by push_cast; ring
              rw [ec] at hsc
              exact hsc
          · rw [kv3, List.foldl_cons]

set_option maxHeartbeats 1600000 in
/-- Master invariant of fits_read_header: on success the mandatory cards
were scanned in order at their fixed offsets, NAXIS is 2 or 3, the data
size fits the remaining input, the consumed cards plus padding reach a
36-card boundary inside the buffer, and a 3-dimensional unit was accepted
only through an aligned CTYPE3 = 'RGB card. -/
theorem fits_read_header_inv (buf : List Nat) (out : ParseOut)
    (h : fits_read_header buf = .ok out) :
    (sscanfSIMPLE buf = some 84 ∨ sscanfSIMPLE buf = some 70 ∨
      (sscanfSIMPLE buf = none ∧ hasPre xtensionPre buf = true)) ∧
    sscanfKwInt [66, 73, 84, 80, 73, 88] (buf.drop 80) = some out.hdr.bitpix ∧
    sscanfKwInt [78, 65, 88, 73, 83] (buf.drop 160) = some out.hdr.naxis ∧
    out.hdr.naxis ≠ 0 ∧ (out.hdr.naxis = 2 ∨ out.hdr.naxis = 3) ∧
    (∃ vdims : List Int, vdims.length = out.hdr.naxis.toNat ∧
      (∀ j, j < out.hdr.naxis.toNat → sscanfNAXISn (buf.drop (240 + 80 * j)) =
        some ((j : Int) + 1, vdims.getD j 0)) ∧
      vdims.foldl (fun s v => (s * ((v.emod (2^64)).toNat)) % 2^64)
        (out.hdr.bitpix.natAbs >>> 3) ≤ out.data.length) ∧
    out.padCards = (36 - out.cards % 36) % 36 ∧
    (out.cards + out.padCards) % 36 = 0 ∧
    out.data = buf.drop (80 * (out.cards + out.padCards)) ∧
    80 * (out.cards + out.padCards) ≤ buf.length ∧
    (out.hdr.rgb = true → ∃ j, hasPre ctype3RgbPre (buf.drop (80 * j)) = true) ∧
    (out.hdr.rgb = false → out.hdr.naxis = 2) := by
  have dd160 : List.drop 80 (List.drop 80 buf) = List.drop 160 buf := by
    rw [List.drop_drop]
  have dd240 : List.drop 80 (List.drop 80 (List.drop 80 buf)) = List.drop 240 buf := by
    rw [List.drop_drop, List.drop_drop]
  simp only [fits_read_header] at h
  by_cases hb0 : buf.length < 80
  · rw [if_pos hb0] at h; exact Except.noConfusion h
  rw [if_neg hb0] at h
  split at h
  · exact Except.noConfusion h
  next h0 heq =>
  obtain ⟨hcard0, hrgb0⟩ :
      (sscanfSIMPLE buf = some 84 ∨ sscanfSIMPLE buf = some 70 ∨
        (sscanfSIMPLE buf = none ∧ hasPre xtensionPre buf = true)) ∧
      h0.rgb = false := by
    cases hs0 : sscanfSIMPLE buf with
    | some c =>
      simp only [hs0] at heq
      by_cases h70 : c = 70
      · rw [if_pos h70] at heq
        injection heq with e
        exact ⟨Or.inr (Or.inl (by rw [h70])), by rw [← e]⟩
      · rw [if_neg h70] at heq
        by_cases h84 : c ≠ 84
        · rw [if_pos h84] at heq; exact Except.noConfusion heq
        · rw [if_neg h84] at heq
          push_neg at h84
          injection heq with e
          exact ⟨Or.inl (by rw [h84]), by rw [← e]⟩
    | none =>
      simp only [hs0] at heq
      by_cases hxt : hasPre xtensionPre buf = true
      · rw [if_pos hxt] at heq
        injection heq with e
        exact ⟨Or.inr (Or.inr ⟨rfl, hxt⟩), by rw [← e]⟩
      · rw [if_neg hxt] at heq; exact Except.noConfusion heq
  by_cases h1l : (List.drop 80 buf).length < 80
  · rw [if_pos h1l] at h; exact Except.noConfusion h
  rw [if_neg h1l] at h
  split at h
  · exact Except.noConfusion h
  next bp hbp =>
  by_cases h2l : (List.drop 80 (List.drop 80 buf)).length < 80
  · rw [if_pos h2l] at h; exact Except.noConfusion h
  rw [if_neg h2l] at h
  split at h
  · exact Except.noConfusion h
  next nx hnx =>
  by_cases hnxz : nx = 0
  · rw [if_pos hnxz] at h; exact Except.noConfusion h
  rw [if_neg hnxz] at h
  by_cases hnx23 : nx ≠ 2 ∧ nx ≠ 3
  · rw [if_pos hnx23] at h; exact Except.noConfusion h
  rw [if_neg hnx23] at h
  rw [dd240] at h
  split at h
  · exact Except.noConfusion h
  next nxs size rem4 lines4 heq2 =>
  obtain ⟨k1, k2, k3, vdims, kv1, kv2, kv3⟩ :=
    naxisLoop_inv _ _ _ _ _ _ _ _ _ _ heq2
  rw [List.drop_drop] at k2
  subst k2
  subst k1
  by_cases h4l : (List.drop (240 + 80 * nx.toNat) buf).length < 80
  · rw [if_pos h4l] at h; exact Except.noConfusion h
  rw [if_neg h4l] at h
  split at h
  · exact Except.noConfusion h
  next h4 minF maxF rem5 lines5 heq3 =>
  obtain ⟨k, hk1, hk2, hk3, hk4, hk5, hk6, hk7, hk8, hk9, hk10⟩ :=
    freeformLoop_inv _ _ _ _ _ _ _ _ _ _ _ heq3 (by omega)
  rw [List.drop_drop] at hk2
  subst hk2
  subst hk1
  have hnax4 : h4.naxis = nx := hk5
  have hbp4 : h4.bitpix = bp := hk6
  have hrgb4 : h4.rgb = true → h0.rgb = true ∨
      ∃ j, hasPre ctype3RgbPre ((List.drop (240 + 80 * nx.toNat) buf).drop (80 * j)) = true :=
    hk10
  by_cases hrgbx : ¬h4.rgb = true ∧ h4.naxis ≠ 2
  · rw [if_pos hrgbx] at h; exact Except.noConfusion h
  rw [if_neg hrgbx] at h
  suffices main : ∀ hdr5 : FITSHeader, hdr5.naxis = h4.naxis → hdr5.bitpix = h4.bitpix →
      hdr5.rgb = h4.rgb →
      ¬ (List.drop 80 (List.drop (240 + 80 * nx.toNat + 80 * k) buf)).length <
        (36 - (3 + nx.toNat + k + 1) % 36) % 36 * 80 →
      ¬ (List.drop ((36 - (3 + nx.toNat + k + 1) % 36) % 36 * 80)
        (List.drop 80 (List.drop (240 + 80 * nx.toNat + 80 * k) buf))).length < size →
      (sscanfSIMPLE buf = some 84 ∨ sscanfSIMPLE buf = some 70 ∨
        (sscanfSIMPLE buf = none ∧ hasPre xtensionPre buf = true)) ∧
      sscanfKwInt [66, 73, 84, 80, 73, 88] (buf.drop 80) = some hdr5.bitpix ∧
      sscanfKwInt [78, 65, 88, 73, 83] (buf.drop 160) = some hdr5.naxis ∧
      hdr5.naxis ≠ 0 ∧ (hdr5.naxis = 2 ∨ hdr5.naxis = 3) ∧
      (∃ vdims : List Int, vdims.length = hdr5.naxis.toNat ∧
        (∀ j, j < hdr5.naxis.toNat → sscanfNAXISn (buf.drop (240 + 80 * j)) =
          some ((j : Int) + 1, vdims.getD j 0)) ∧
        vdims.foldl (fun s v => (s * ((v.emod (2^64)).toNat)) % 2^64)
          (hdr5.bitpix.natAbs >>> 3) ≤
          (List.drop ((36 - (3 + nx.toNat + k + 1) % 36) % 36 * 80)
            (List.drop 80 (List.drop (240 + 80 * nx.toNat + 80 * k) buf))).length) ∧
      ((36 - (3 + nx.toNat + k + 1) % 36) % 36 * 80 / 80 =
        (36 - (3 + nx.toNat + k + 1) % 36) % 36) ∧
      ((3 + nx.toNat + k + 1 + (36 - (3 + nx.toNat + k + 1) % 36) % 36 * 80 / 80) % 36 = 0) ∧
      (List.drop ((36 - (3 + nx.toNat + k + 1) % 36) % 36 * 80)
          (List.drop 80 (List.drop (240 + 80 * nx.toNat + 80 * k) buf)) =
        buf.drop (80 * (3 + nx.toNat + k + 1 +
          (36 - (3 + nx.toNat + k + 1) % 36) % 36 * 80 / 80))) ∧
      80 * (3 + nx.toNat + k + 1 + (36 - (3 + nx.toNat + k + 1) % 36) % 36 * 80 / 80) ≤
        buf.length ∧
      (hdr5.rgb = true → ∃ j, hasPre ctype3RgbPre (buf.drop (80 * j)) = true) ∧
      (hdr5.rgb = false → hdr5.naxis = 2) by
    by_cases hbc : h4.blank_found = true ∧ (h4.bitpix = -32 ∨ h4.bitpix = -64)
    · rw [if_pos hbc] at h
      by_cases hpl : (List.drop 80 (List.drop (240 + 80 * nx.toNat + 80 * k) buf)).length <
          (36 - (3 + nx.toNat + k + 1) % 36) % 36 * 80
      · rw [if_pos hpl] at h; exact Except.noConfusion h
      rw [if_neg hpl] at h
      by_cases hsl : (List.drop ((36 - (3 + nx.toNat + k + 1) % 36) % 36 * 80)
          (List.drop 80 (List.drop (240 + 80 * nx.toNat + 80 * k) buf))).length < size
      · rw [if_pos hsl] at h; exact Except.noConfusion h
      rw [if_neg hsl] at h
      by_cases hfc : ¬h4.rgb = true ∧ (¬minF = true ∨ ¬maxF = true)
      · rw [if_pos hfc] at h
        split at h
        · exact Except.noConfusion h
        next mn mx heq4 =>
          injection h with e
          rw [← e]
          exact main _ rfl rfl rfl hpl hsl
      · rw [if_neg hfc] at h
        injection h with e
        rw [← e]
        exact main _ rfl rfl rfl hpl hsl
    · rw [if_neg hbc] at h
      by_cases hpl : (List.drop 80 (List.drop (240 + 80 * nx.toNat + 80 * k) buf)).length <
          (36 - (3 + nx.toNat + k + 1) % 36) % 36 * 80
      · rw [if_pos hpl] at h; exact Except.noConfusion h
      rw [if_neg hpl] at h
      by_cases hsl : (List.drop ((36 - (3 + nx.toNat + k + 1) % 36) % 36 * 80)
          (List.drop 80 (List.drop (240 + 80 * nx.toNat + 80 * k) buf))).length < size
      · rw [if_pos hsl] at h; exact Except.noConfusion h
      rw [if_neg hsl] at h
      by_cases hfc : ¬h4.rgb = true ∧ (¬minF = true ∨ ¬maxF = true)
      · rw [if_pos hfc] at h
        split at h
        · exact Except.noConfusion h
        next mn mx heq4 =>
          injection h with e
          rw [← e]
          exact main _ rfl rfl rfl hpl hsl
      · rw [if_neg hfc] at h
        injection h with e
        rw [← e]
        exact main _ rfl rfl rfl hpl hsl
  intro hdr5 e1 e2 e3 hpl hsl
  have hnx160 : sscanfKwInt [78, 65, 88, 73, 83] (List.drop 160 buf) = some nx := by
    rw [← dd160]; exact hnx
  have hl1 : (List.drop 80 buf).length = buf.length - 80 := by
    simp only [List.length_drop]
  have hl2 : (List.drop 80 (List.drop 80 buf)).length = buf.length - 80 - 80 := by
    simp only [List.length_drop]
  have hl3 : (List.drop 240 buf).length = buf.length - 240 := by
    simp only [List.length_drop]
  have hl4 : (List.drop (240 + 80 * nx.toNat) buf).length =
      buf.length - (240 + 80 * nx.toNat) := by
    simp only [List.length_drop]
  have hl5 : (List.drop 80 (List.drop (240 + 80 * nx.toNat + 80 * k) buf)).length =
      buf.length - (240 + 80 * nx.toNat + 80 * k) - 80 := by
    simp only [List.length_drop]
  refine ⟨hcard0, ?_, ?_, ?_, ?_, ⟨vdims, ?_, ?_, ?_⟩, ?_, ?_, ?_, ?_, ?_, ?_⟩
  · rw [e2, hbp4]; exact hbp
  · rw [e1, hnax4]; exact hnx160
  · rw [e1, hnax4]; exact hnxz
  · rw [e1, hnax4]
    by_cases h2 : nx = 2
    · exact Or.inl h2
    · rcases not_and_or.mp hnx23 with h' | h'
      · exact absurd (by push_neg at h'; exact h') h2
      · push_neg at h'
        exact Or.inr h'
  · rw [e1, hnax4]; exact kv1
  · intro j hj
    rw [e1, hnax4] at hj
    have hsc := kv2 j hj
    rw [List.drop_drop] at hsc
    simpa using hsc
  · rw [e2, hbp4, ← kv3]
    exact Nat.le_of_not_lt hsl
  · omega
  · omega
  · rw [List.drop_drop, List.drop_drop]
    congr 1
    omega
  · rw [hl1] at h1l
    rw [hl2] at h2l
    rw [hl3] at k3
    rw [hl4] at h4l hk3
    rw [hl5] at hpl
    omega
  · intro hr5
    rw [e3] at hr5
    rcases hrgb4 hr5 with h0r | ⟨j, hj⟩
    · rw [hrgb0] at h0r
      exact absurd h0r (by simp)
    · rw [List.drop_drop] at hj
      refine ⟨3 + nx.toNat + j, ?_⟩
      rw [show 80 * (3 + nx.toNat + j) = 240 + 80 * nx.toNat + 80 * j from by ring]
      exact hj
  · intro hrf
    rw [e3] at hrf
    rw [e1, hnax4]
    push_neg at hrgbx
    rw [← hnax4]
    exact hrgbx (by simp [hrf])

/-- C5: parsing succeeds only when the mandatory cards appear in the
order SIMPLE|XTENSION, BITPIX, NAXIS, NAXIS1..NAXISn at their fixed
80-byte offsets (so a different keyword in any mandatory position, or a
missing NAXIS card, is rejected), NAXIS 0 is rejected, NAXIS is 2 or 3,
and the uint64 data size |bitpix|/8 · ∏ naxisn computed from the scanned
dims is checked against the remaining input length. -/
theorem mandatory_card_order (buf : List Nat) (out : ParseOut)
    (h : fits_read_header buf = .ok out) :
    (sscanfSIMPLE buf = some 84 ∨ sscanfSIMPLE buf = some 70 ∨
      (sscanfSIMPLE buf = none ∧ hasPre xtensionPre buf = true)) ∧
    sscanfKwInt [66, 73, 84, 80, 73, 88] (buf.drop 80) = some out.hdr.bitpix ∧
    sscanfKwInt [78, 65, 88, 73, 83] (buf.drop 160) = some out.hdr.naxis ∧
    out.hdr.naxis ≠ 0 ∧ (out.hdr.naxis = 2 ∨ out.hdr.naxis = 3) ∧
    (∃ vdims : List Int, vdims.length = out.hdr.naxis.toNat ∧
      (∀ j, j < out.hdr.naxis.toNat → sscanfNAXISn (buf.drop (240 + 80 * j)) =
        some ((j : Int) + 1, vdims.getD j 0)) ∧
      vdims.foldl (fun s v => (s * ((v.emod (2^64)).toNat)) % 2^64)
        (out.hdr.bitpix.natAbs >>> 3) ≤ out.data.length) := by
  obtain ⟨c0, c1, c2, c3, c4, c5, _⟩ := fits_read_header_inv buf out h
  exact ⟨c0, c1, c2, c3, c4, c5⟩

/-- C6: on every successful parse the number of cards consumed through
END plus the padding-card count (36 − cards mod 36) mod 36 is a multiple
of 36, and the padding was validated against the remaining buffer length
before being skipped (the data segment starts exactly after it and lies
inside the buffer). -/
theorem header_block_alignment (buf : List Nat) (out : ParseOut)
    (h : fits_read_header buf = .ok out) :
    out.padCards = (36 - out.cards % 36) % 36 ∧
    (out.cards + out.padCards) % 36 = 0 ∧
    out.data = buf.drop (80 * (out.cards + out.padCards)) ∧
    80 * (out.cards + out.padCards) ≤ buf.length := by
  obtain ⟨_, _, _, _, _, _, c6, c7, c8, c9, _⟩ := fits_read_header_inv buf out h
  exact ⟨c6, c7, c8, c9⟩

/-- C10: a successfully parsed image unit either has NAXIS = 2, or has
NAXIS = 3 and some 80-byte-aligned card of the buffer begins with
CTYPE3  = 'RGB — so a 3-dimensional cube without such a card is
rejected after END. -/
theorem naxis3_requires_rgb (buf : List Nat) (out : ParseOut)
    (h : fits_read_header buf = .ok out) :
    out.hdr.naxis = 2 ∨
      (out.hdr.naxis = 3 ∧ ∃ j, hasPre ctype3RgbPre (buf.drop (80 * j)) = true) := by
  obtain ⟨_, _, _, _, c4, _, _, _, _, _, c10, c11⟩ := fits_read_header_inv buf out h
  cases hr : out.hdr.rgb with
  | false => exact Or.inl (c11 hr)
  | true =>
    rcases c4 with h2 | h3
    · exact Or.inl h2
    · exact Or.inr ⟨h3, c10 hr⟩

/-- C5 witness: the concrete packet wBuf satisfies every conjunct of the
mandatory-card-order theorem. -/
theorem mandatory_card_order_witness :
    (sscanfSIMPLE wBuf = some 84 ∨ sscanfSIMPLE wBuf = some 70 ∨
      (sscanfSIMPLE wBuf = none ∧ hasPre xtensionPre wBuf = true)) ∧
    sscanfKwInt [66, 73, 84, 80, 73, 88] (wBuf.drop 80) = some 8 ∧
    sscanfKwInt [78, 65, 88, 73, 83] (wBuf.drop 160) = some 2 ∧
    (2 : Int) ≠ 0 ∧ ((2 : Int) = 2 ∨ (2 : Int) = 3) ∧
    (∃ vdims : List Int, vdims.length = (2 : Int).toNat ∧
      (∀ j, j < (2 : Int).toNat → sscanfNAXISn (wBuf.drop (240 + 80 * j)) =
        some ((j : Int) + 1, vdims.getD j 0)) ∧
      vdims.foldl (fun s v => (s * ((v.emod (2^64)).toNat)) % 2^64)
        ((8 : Int).natAbs >>> 3) ≤ ([0, 1, 2] : List Nat).length) :=
  mandatory_card_order wBuf
    ⟨{ simple := 84, bitpix := 8, naxis := 2, naxisn := [3, 1, 0],
       data_min := 0, data_max := 2 }, [0, 1, 2], 6, 30⟩ wParse

/-- C6 witness: the concrete packet wBuf consumes 6 cards and 30 padding
cards, 36 in total, and its data segment starts at byte 2880. -/
theorem header_block_alignment_witness :
    (30 : Nat) = (36 - 6 % 36) % 36 ∧ (6 + 30) % 36 = 0 ∧
    ([0, 1, 2] : List Nat) = wBuf.drop (80 * (6 + 30)) ∧
    80 * (6 + 30) ≤ wBuf.length :=
  header_block_alignment wBuf
    ⟨{ simple := 84, bitpix := 8, naxis := 2, naxisn := [3, 1, 0],
       data_min := 0, data_max := 2 }, [0, 1, 2], 6, 30⟩ wParse

/-- C10 witness: the concrete packet wBuf is accepted with NAXIS = 2. -/
theorem naxis3_requires_rgb_witness :
    (2 : Int) = 2 ∨
      ((2 : Int) = 3 ∧ ∃ j, hasPre ctype3RgbPre (wBuf.drop (80 * j)) = true) :=
  naxis3_requires_rgb wBuf
    ⟨{ simple := 84, bitpix := 8, naxis := 2, naxisn := [3, 1, 0],
       data_min := 0, data_max := 2 }, [0, 1, 2], 6, 30⟩ wParse

/-- Bitwise or of a value with zero low bits and a value fitting in those
low bits is their sum. -/
theorem lor_low (A B k : Nat) (h : B < 2^k) : (A * 2^k) ||| B = A * 2^k + B := by
  apply Nat.eq_of_testBit_eq
  intro j
  rw [Nat.testBit_lor, mul_comm A, Nat.testBit_mul_pow_two_add A h j,
    Nat.testBit_mul_pow_two]
  by_cases hjk : j < k
  · rw [if_pos hjk]
    have hn : ¬ j ≥ k := by omega
    simp [hn]
  · rw [if_neg hjk]
    have hge : j ≥ k := by omega
    have hbf : B.testBit j = false :=
      Nat.testBit_lt_two_pow (lt_of_lt_of_le h (Nat.pow_le_pow_right (by norm_num) hge))
    simp [hge, hbf]

/-- The packed 8-bit RGB word is the base-256 digit string A,R,G,B when
every channel value is in range. -/
theorem rgbPixel8_eq (a r g b : Nat) (ha : a < 256) (hr : r < 256) (hg : g < 256)
    (hb : b < 256) : rgbPixel8 a r g b = a * 2^24 + r * 2^16 + g * 2^8 + b := by
  unfold rgbPixel8
  rw [Nat.shiftLeft_eq, Nat.shiftLeft_eq, Nat.shiftLeft_eq]
  rw [Nat.mod_eq_of_lt (show a * 2^24 < 2^64 by omega),
    Nat.mod_eq_of_lt (show a * 2^24 < 2^32 by omega),
    Nat.mod_eq_of_lt (show r * 2^16 < 2^64 by omega),
    Nat.mod_eq_of_lt (show r * 2^16 < 2^32 by omega),
    Nat.mod_eq_of_lt (show g * 2^8 < 2^64 by omega),
    Nat.mod_eq_of_lt (show g * 2^8 < 2^32 by omega),
    Nat.mod_eq_of_lt (show b < 2^32 by omega)]
  rw [lor_low a (r * 2^16) 24 (by omega)]
  rw [show a * 2^24 + r * 2^16 = (a * 2^8 + r) * 2^16 from by ring]
  rw [lor_low (a * 2^8 + r) (g * 2^8) 16 (by omega)]
  rw [show (a * 2^8 + r) * 2^16 + g * 2^8 = ((a * 2^8 + r) * 2^8 + g) * 2^8 from by ring]
  rw [lor_low ((a * 2^8 + r) * 2^8 + g) b 8 (by omega)]

/-- C7 (amended): one pixel of the 8-bit RGB decode with successfully
scaled in-range channel values packs plane 0 into the R byte, plane 1
into G, plane 2 into B, and plane 3 into A (constant 255 when NAXIS3 is
not 4), each transformed only by the BLANK mask and t*bscale+bzero. -/
theorem rgb8_pixel_channels (bf : Bool) (blank : Int) (bscale bzero : ℚ)
    (naxisn3 size : Nat) (bs : List Nat) (n : Nat) (a r g b : Nat)
    (ha : (if naxisn3 = 4 then rgbScale bf blank bscale bzero (bs.getD (size * 3 + n) 0)
           else some 255) = some a)
    (hr : rgbScale bf blank bscale bzero (bs.getD n 0) = some r)
    (hg : rgbScale bf blank bscale bzero (bs.getD (size + n) 0) = some g)
    (hb : rgbScale bf blank bscale bzero (bs.getD (size * 2 + n) 0) = some b)
    (ha2 : a < 256) (hr2 : r < 256) (hg2 : g < 256) (hb2 : b < 256) :
    rgb8Pixel bf blank bscale bzero naxisn3 size bs n =
      some (a * 2^24 + r * 2^16 + g * 2^8 + b) := by
  rw [rgb8Pixel]
  by_cases h4 : naxisn3 = 4
  · rw [if_pos h4] at ha ⊢
    simp only [ha, hr, hg, hb, Option.bind_eq_bind, Option.some_bind]
    rw [rgbPixel8_eq a r g b ha2 hr2 hg2 hb2]
  · rw [if_neg h4] at ha ⊢
    injection ha with e
    subst e
    simp only [hr, hg, hb, Option.bind_eq_bind, Option.some_bind]
    rw [rgbPixel8_eq 255 r g b (by norm_num) hr2 hg2 hb2]

/-- C7 witness: a concrete 1x1 8-bit RGB cube with NAXIS3 = 3 and planes
[10], [20], [30] decodes the pixel to 255,10,20,30 (opaque alpha). -/
theorem rgb8_pixel_channels_witness :
    rgb8Pixel false 0 1 0 3 1 [10, 20, 30] 0 =
      some (255 * 2^24 + 10 * 2^16 + 20 * 2^8 + 30) :=
  rgb8_pixel_channels false 0 1 0 3 1 [10, 20, 30] 0 255 10 20 30
    (by norm_num)
    (by norm_num [rgbScale, truncQ]; decide)
    (by norm_num [rgbScale, truncQ]; decide)
    (by norm_num [rgbScale, truncQ]; decide)
    (by norm_num) (by norm_num) (by norm_num) (by norm_num)

/-- C7 counterexample: the 16-bit RGB path advances planes by size bytes,
not size samples: for the 1x1, NAXIS3 = 3 cube with bytes
[0,1,2,3,4,5] the decoded G channel is byte pair 1..2 = 258 (overlapping
R) instead of plane 1's sample 2*256+3 = 515, and B is 515 instead of
plane 2's 1029. -/
theorem rgb16_half_stride_cex :
    fits_decode_rgb16 false 0 1 0 3 1 1 [0, 1, 2, 3, 4, 5] =
      some [[rgbPixel16 65535 1 258 515]] ∧
    rgbPixel16 65535 1 258 515 ≠ rgbPixel16 65535 1 515 1029 := by
  constructor
  · norm_num [fits_decode_rgb16, rgbRowsLoop, rgbRowLoop, rgb16Pixel, rgbScale, truncQ]
    decide
  · decide

/-- Int.emod is the % operator (bridging lemma for omega). -/
theorem emod_eq_mod (a b : Int) : a.emod b = a % b := rfl

/-- A 16-bit read from the head of the stream, explicitly. -/
theorem readRaw16_cons (b1 b0 : Nat) (r : List Nat) :
    readRaw 16 (b1 :: b0 :: r) = some (((toSigned 16 (b1 * 256 + b0) : Int) : ℚ), r) := rfl

/-- The encoder's biased 16-bit write followed by the decoder's signed
16-bit read recovers sample − 32768 exactly. -/
theorem putBE16sub_roundtrip (s : Nat) (hs : s < 65536) (rest : List Nat) :
    readRaw 16 (putBE16sub 32768 s ++ rest) = some ((s : ℚ) - 32768, rest) := by
  have e : putBE16sub 32768 s ++ rest =
      (((s : Int) - 32768).emod 65536).toNat / 256 ::
      (((s : Int) - 32768).emod 65536).toNat % 256 :: rest := rfl
  rw [e, readRaw16_cons]
  rw [show (((s : Int) - 32768).emod 65536).toNat / 256 * 256 +
      (((s : Int) - 32768).emod 65536).toNat % 256 =
      (((s : Int) - 32768).emod 65536).toNat from by omega]
  have h215 : (2:Nat)^(16-1) = 32768 := by norm_num
  have h216 : (2:Int)^(16:Nat) = 65536 := by norm_num
  have ht : toSigned 16 ((((s : Int) - 32768).emod 65536).toNat) = (s : Int) - 32768 := by
    rw [toSigned, h215]
    simp only [emod_eq_mod]
    by_cases hlt : ((((s : Int) - 32768) % 65536).toNat) < 32768
    · rw [if_pos hlt]
      omega
    · rw [if_neg hlt, h216]
      omega
  rw [ht]
  have hc : (((s : Int) - 32768 : Int) : ℚ) = (s : ℚ) - 32768 := by push_cast; ring
  rw [hc]

/-- C8: 16-bit encoding uses the unsigned-to-signed bias 32768: every
raster sample below 2^16 (written by either the gray or the RGB16 plane
path) is stored as the big-endian signed value sample − 32768, a
BZERO = 32768 card is in the emitted header, and no emitted card carries
the BLANK keyword. -/
theorem encode16_bias (first_image : Bool) (naxis3 width height : Int) (rgb : Bool)
    (s : Nat) (hs : s < 65536) (rest : List Nat) :
    readRaw 16 (putBE16sub 32768 s ++ rest) = some ((s : ℚ) - 32768, rest) ∧
    write_keyword_value [66, 90, 69, 82, 79] 32768 ∈
      fits_encode_header_cards first_image 16 naxis3 width height rgb ∧
    (∀ c ∈ fits_encode_header_cards first_image 16 naxis3 width height rgb,
      hasPre [66, 76, 65, 78, 75] c = false) := by
  refine ⟨putBE16sub_roundtrip s hs rest, ?_, ?_⟩
  · cases first_image <;> cases rgb <;>
      simp [fits_encode_header_cards]
  · intro c hc
    cases first_image <;> cases rgb <;>
      simp only [fits_encode_header_cards, List.append_assoc, List.cons_append,
        List.nil_append, reduceIte] at hc <;>
      fin_cases hc <;> rfl

/-- C8 witness: sample 40000 encodes to the signed value 7232 = 40000 −
32768, and the concrete 16-bit gray header contains the BZERO card and
no BLANK card. -/
theorem encode16_bias_witness :
    (readRaw 16 (putBE16sub 32768 40000 ++ []) = some ((40000 : ℚ) - 32768, []) ∧
     write_keyword_value [66, 90, 69, 82, 79] 32768 ∈
       fits_encode_header_cards true 16 1 1 1 false ∧
     (∀ c ∈ fits_encode_header_cards true 16 1 1 1 false,
       hasPre [66, 76, 65, 78, 75] c = false)) :=
  encode16_bias true 1 1 1 false 40000 (by norm_num) []

/-! ## C9: decode-encode-decode idempotence on the scan path -/

/-- Without BLANK, the min/max scan fold splits into a min fold and a
max fold. -/
theorem mmUpd_false_fold (blank : Int) :
    ∀ (vs : List ℚ) (a b : ℚ),
      vs.foldl (mmUpd false blank) (a, b) = (vs.foldl min a, vs.foldl max b) := by
  intro vs
  induction vs with
  | nil => intro a b; rfl
  | cons v vs ih =>
    intro a b
    rw [List.foldl_cons, List.foldl_cons, List.foldl_cons]
    have e : mmUpd false blank (a, b) v = (min a v, max b v) := by
      rw [mmUpd]
      rw [if_neg (by simp)]
      dsimp only
      congr 1
      · by_cases hv : v < a
        · rw [if_pos hv, min_eq_right hv.le]
        · rw [if_neg hv, min_eq_left (le_of_not_lt hv)]
      · by_cases hv : b < v
        · rw [if_pos hv, max_eq_right hv.le]
        · rw [if_neg hv, max_eq_left (le_of_not_lt hv)]
    rw [e, ih]

/-- A min fold is below its seed and every element. -/
theorem foldl_min_le : ∀ (vs : List ℚ) (a : ℚ),
    vs.foldl min a ≤ a ∧ ∀ t ∈ vs, vs.foldl min a ≤ t := by
  intro vs
  induction vs with
  | nil => intro a; exact ⟨le_refl a, by simp⟩
  | cons v vs ih =>
    intro a
    rw [List.foldl_cons]
    obtain ⟨h1, h2⟩ := ih (min a v)
    refine ⟨h1.trans (min_le_left a v), ?_⟩
    intro t ht
    rcases List.mem_cons.mp ht with rfl | ht
    · exact h1.trans (min_le_right a t)
    · exact h2 t ht

/-- A max fold is above its seed and every element. -/
theorem foldl_max_ge : ∀ (vs : List ℚ) (b : ℚ),
    b ≤ vs.foldl max b ∧ ∀ t ∈ vs, t ≤ vs.foldl max b := by
  intro vs
  induction vs with
  | nil => intro b; exact ⟨le_refl b, by simp⟩
  | cons v vs ih =>
    intro b
    rw [List.foldl_cons]
    obtain ⟨h1, h2⟩ := ih (max b v)
    refine ⟨(le_max_left b v).trans h1, ?_⟩
    intro t ht
    rcases List.mem_cons.mp ht with rfl | ht
    · exact (le_max_right b t).trans h1
    · exact h2 t ht

/-- A min fold returns its seed or some element. -/
theorem foldl_min_attain : ∀ (vs : List ℚ) (a : ℚ),
    vs.foldl min a = a ∨ ∃ t ∈ vs, vs.foldl min a = t := by
  intro vs
  induction vs with
  | nil => intro a; exact Or.inl rfl
  | cons v vs ih =>
    intro a
    rw [List.foldl_cons]
    rcases ih (min a v) with h | ⟨t, ht, he⟩
    · rcases min_choice a v with hm | hm
      · exact Or.inl (h.trans hm)
      · exact Or.inr ⟨v, List.mem_cons_self v vs, h.trans hm⟩
    · exact Or.inr ⟨t, List.mem_cons_of_mem v ht, he⟩

/-- A max fold returns its seed or some element. -/
theorem foldl_max_attain : ∀ (vs : List ℚ) (b : ℚ),
    vs.foldl max b = b ∨ ∃ t ∈ vs, vs.foldl max b = t := by
  intro vs
  induction vs with
  | nil => intro b; exact Or.inl rfl
  | cons v vs ih =>
    intro b
    rw [List.foldl_cons]
    rcases ih (max b v) with h | ⟨t, ht, he⟩
    · rcases max_choice b v with hm | hm
      · exact Or.inl (h.trans hm)
      · exact Or.inr ⟨v, List.mem_cons_self v vs, h.trans hm⟩
    · exact Or.inr ⟨t, List.mem_cons_of_mem v ht, he⟩

/-- A min fold seeded above a least member returns that member. -/
theorem foldl_min_eq (vs : List ℚ) (a c : ℚ) (hmem : c ∈ vs)
    (hle : ∀ t ∈ vs, c ≤ t) (hca : c ≤ a) : vs.foldl min a = c := by
  have h1 := (foldl_min_le vs a).2 c hmem
  rcases foldl_min_attain vs a with h | ⟨t, ht, he⟩
  · exact le_antisymm h1 (by rw [h]; exact hca)
  · exact le_antisymm h1 (by rw [he]; exact hle t ht)

/-- A max fold seeded below a greatest member returns that member. -/
theorem foldl_max_eq (vs : List ℚ) (b c : ℚ) (hmem : c ∈ vs)
    (hge : ∀ t ∈ vs, t ≤ c) (hcb : b ≤ c) : vs.foldl max b = c := by
  have h1 := (foldl_max_ge vs b).2 c hmem
  rcases foldl_max_attain vs b with h | ⟨t, ht, he⟩
  · exact le_antisymm (by rw [h]; exact hcb) h1
  · exact le_antisymm (by rw [he]; exact hge t ht) h1

/-- Every finite single-precision value is at most DBL_MAX. -/
theorem ieee32_le (b : Nat) (q : ℚ) (h : ieeeFloat 8 23 b = some q) : q ≤ DBL_MAX := by
  rw [ieeeFloat] at h
  by_cases he : b / 2^23 % 2^8 = 2^8 - 1
  · rw [if_pos he] at h; exact Option.noConfusion h
  rw [if_neg he] at h
  dsimp only at h
  injection h with h
  subst h
  have hm : b % 2^23 < 2^23 := Nat.mod_lt _ (by norm_num)
  have he8 : b / 2^23 % 2^8 < 2^8 := Nat.mod_lt _ (by norm_num)
  have hmagle :
      (if b / 2^23 % 2^8 = 0 then
        ((b % 2^23 : ℕ) : ℚ) * (2:ℚ)^((2 : ℤ) - (2^(8 - 1) : ℕ) - (23 : ℕ))
      else ((2^23 + b % 2^23 : ℕ) : ℚ) *
        (2:ℚ)^(((b / 2^23 % 2^8 : ℕ) : ℤ) - ((2^(8 - 1) - 1 : ℕ)) - (23 : ℕ))) ≤ DBL_MAX := by
    by_cases hz : b / 2^23 % 2^8 = 0
    · rw [if_pos hz]
      have h1 : ((b % 2^23 : ℕ) : ℚ) ≤ 2^23 := by
        rw [show ((2:ℚ)^23) = ((2^23 : ℕ) : ℚ) from by push_cast; ring]
        exact_mod_cast hm.le
      have h2 : (2:ℚ)^((2 : ℤ) - (2^(8 - 1) : ℕ) - (23 : ℕ)) ≤ (2:ℚ)^(0 : ℤ) := by
        apply (zpow_le_zpow_iff_right₀ (by norm_num : (1:ℚ) < 2)).mpr
        push_cast
      have h3 := mul_le_mul h1 h2 (by positivity) (by positivity)
      refine h3.trans ?_
      rw [zpow_zero, mul_one, DBL_MAX]
      norm_num
    · rw [if_neg hz]
      have h1 : ((2^23 + b % 2^23 : ℕ) : ℚ) ≤ 2^24 := by
        rw [show ((2:ℚ)^24) = ((2^24 : ℕ) : ℚ) from by push_cast; ring]
        exact_mod_cast (by omega : 2^23 + b % 2^23 ≤ 2^24)
      have h2 : (2:ℚ)^(((b / 2^23 % 2^8 : ℕ) : ℤ) - ((2^(8 - 1) - 1 : ℕ)) - (23 : ℕ)) ≤
          (2:ℚ)^(104 : ℤ) := by
        have hb : b / 2^23 % 2^8 ≤ 254 := by omega
        apply (zpow_le_zpow_iff_right₀ (by norm_num : (1:ℚ) < 2)).mpr
        push_cast
        omega
      have h3 := mul_le_mul h1 h2 (by positivity) (by positivity)
      refine h3.trans ?_
      rw [show ((104:ℤ)) = ((104:ℕ) : ℤ) from rfl, zpow_natCast, DBL_MAX]
      push_cast
      norm_num
  by_cases hs : b / 2^(23 + 8) % 2 = 1
  · rw [if_pos hs]
    refine le_trans (neg_nonpos_of_nonneg ?_) ?_
    · by_cases hz : b / 2^23 % 2^8 = 0
      · rw [if_pos hz]; positivity
      · rw [if_neg hz]; positivity
    · rw [DBL_MAX]; positivity
  · rw [if_neg hs]
    exact hmagle

/-- Every finite double-precision value is at most DBL_MAX. -/
theorem ieee64_le (b : Nat) (q : ℚ) (h : ieeeFloat 11 52 b = some q) : q ≤ DBL_MAX := by
  rw [ieeeFloat] at h
  by_cases he : b / 2^52 % 2^11 = 2^11 - 1
  · rw [if_pos he] at h; exact Option.noConfusion h
  rw [if_neg he] at h
  dsimp only at h
  injection h with h
  subst h
  have hm : b % 2^52 < 2^52 := Nat.mod_lt _ (by norm_num)
  have he11 : b / 2^52 % 2^11 < 2^11 := Nat.mod_lt _ (by norm_num)
  have hmagle :
      (if b / 2^52 % 2^11 = 0 then
        ((b % 2^52 : ℕ) : ℚ) * (2:ℚ)^((2 : ℤ) - (2^(11 - 1) : ℕ) - (52 : ℕ))
      else ((2^52 + b % 2^52 : ℕ) : ℚ) *
        (2:ℚ)^(((b / 2^52 % 2^11 : ℕ) : ℤ) - ((2^(11 - 1) - 1 : ℕ)) - (52 : ℕ))) ≤ DBL_MAX := by
    by_cases hz : b / 2^52 % 2^11 = 0
    · rw [if_pos hz]
      have h1 : ((b % 2^52 : ℕ) : ℚ) ≤ 2^52 := by
        rw [show ((2:ℚ)^52) = ((2^52 : ℕ) : ℚ) from by push_cast; ring]
        exact_mod_cast hm.le
      have h2 : (2:ℚ)^((2 : ℤ) - (2^(11 - 1) : ℕ) - (52 : ℕ)) ≤ (2:ℚ)^(0 : ℤ) := by
        apply (zpow_le_zpow_iff_right₀ (by norm_num : (1:ℚ) < 2)).mpr
        push_cast
      have h3 := mul_le_mul h1 h2 (by positivity) (by positivity)
      refine h3.trans ?_
      rw [zpow_zero, mul_one, DBL_MAX]
      norm_num
    · rw [if_neg hz]
      have h1 : ((2^52 + b % 2^52 : ℕ) : ℚ) ≤ ((2^53 - 1 : ℕ) : ℚ) :=
        Nat.cast_le.mpr (by omega)
      have h2 : (2:ℚ)^(((b / 2^52 % 2^11 : ℕ) : ℤ) - ((2^(11 - 1) - 1 : ℕ)) - (52 : ℕ)) ≤
          (2:ℚ)^(971 : ℤ) := by
        have hb : b / 2^52 % 2^11 ≤ 2046 := by omega
        apply (zpow_le_zpow_iff_right₀ (by norm_num : (1:ℚ) < 2)).mpr
        push_cast
        omega
      have h3 := mul_le_mul h1 h2 (by positivity) (by positivity)
      refine h3.trans ?_
      rw [show ((971:ℤ)) = ((971:ℕ) : ℤ) from rfl, zpow_natCast, DBL_MAX]
      push_cast
      norm_num
  by_cases hs : b / 2^(52 + 11) % 2 = 1
  · rw [if_pos hs]
    refine le_trans (neg_nonpos_of_nonneg ?_) ?_
    · by_cases hz : b / 2^52 % 2^11 = 0
      · rw [if_pos hz]; positivity
      · rw [if_neg hz]; positivity
    · rw [DBL_MAX]; positivity
  · rw [if_neg hs]
    exact hmagle

/-- A signed reinterpretation of a w-bit pattern is below 2^w. -/
theorem toSigned_lt (w v : Nat) (hv : v < 2^w) : toSigned w v < 2^w := by
  rw [toSigned]
  have hv' : (v : Int) < 2^w := by exact_mod_cast hv
  have hpos : (0:Int) < 2^w := by positivity
  by_cases h : v < 2^(w-1)
  · rw [if_pos h]; exact hv'
  · rw [if_neg h]
    omega

/-- Every sample readRaw yields from a stream of bytes is at most
DBL_MAX, and the remaining stream is again bytes. -/
theorem readRaw_le_DBL_MAX (bp : Int) (bs : List Nat) (t : ℚ) (r : List Nat)
    (hb : ∀ x ∈ bs, x < 256) (h : readRaw bp bs = some (t, r)) :
    t ≤ DBL_MAX ∧ ∀ x ∈ r, x < 256 := by
  have hcast : ∀ (w : Nat) (v : Nat), v < 2^w → w ≤ 64 →
      ((toSigned w v : Int) : ℚ) ≤ DBL_MAX := by
    intro w v hv hw
    have h1 : toSigned w v < 2^w := toSigned_lt w v hv
    have h2 : ((toSigned w v : Int) : ℚ) ≤ (((2:Int)^w : Int) : ℚ) := by
      exact_mod_cast h1.le
    refine h2.trans ?_
    have h3 : ((2:Int)^w : Int) ≤ (2:Int)^64 := pow_le_pow_right₀ (by norm_num) hw
    have h4 : (((2:Int)^w : Int) : ℚ) ≤ (((2:Int)^64 : Int) : ℚ) := by exact_mod_cast h3
    refine h4.trans ?_
    rw [DBL_MAX]
    push_cast
    norm_num
  rw [readRaw.eq_def] at h
  by_cases h8 : bp = 8
  · rw [if_pos h8] at h
    cases bs with
    | nil => exact Option.noConfusion h
    | cons b r0 =>
      simp only [Option.some.injEq, Prod.mk.injEq] at h
      obtain ⟨h1, h2⟩ := h
      subst h1
      subst h2
      refine ⟨?_, fun x hx => hb x (List.mem_cons_of_mem _ hx)⟩
      have hble : b < 256 := hb b (by simp)
      have : ((b : ℚ)) ≤ 255 := by exact_mod_cast Nat.lt_succ_iff.mp hble
      refine this.trans ?_
      rw [DBL_MAX]
      norm_num
  rw [if_neg h8] at h
  by_cases h16 : bp = 16
  · rw [if_pos h16] at h
    match bs, h with
    | b1 :: b0 :: r0, h =>
      simp only [Option.some.injEq, Prod.mk.injEq] at h
      obtain ⟨h1, h2⟩ := h
      subst h1
      subst h2
      refine ⟨?_, fun x hx => hb x (by simp [hx])⟩
      have e1 : b1 < 256 := hb b1 (by simp)
      have e0 : b0 < 256 := hb b0 (by simp)
      exact hcast 16 _ (by omega) (by omega)
  rw [if_neg h16] at h
  by_cases h32 : bp = 32
  · rw [if_pos h32] at h
    match bs, h with
    | b3 :: b2 :: b1 :: b0 :: r0, h =>
      simp only [Option.some.injEq, Prod.mk.injEq] at h
      obtain ⟨h1, h2⟩ := h
      subst h1
      subst h2
      refine ⟨?_, fun x hx => hb x (by simp [hx])⟩
      have e3 : b3 < 256 := hb b3 (by simp)
      have e2 : b2 < 256 := hb b2 (by simp)
      have e1 : b1 < 256 := hb b1 (by simp)
      have e0 : b0 < 256 := hb b0 (by simp)
      exact hcast 32 _ (by omega) (by omega)
  rw [if_neg h32] at h
  by_cases h64 : bp = 64
  · rw [if_pos h64] at h
    match bs, h with
    | b7 :: b6 :: b5 :: b4 :: b3 :: b2 :: b1 :: b0 :: r0, h =>
      simp only [Option.some.injEq, Prod.mk.injEq] at h
      obtain ⟨h1, h2⟩ := h
      subst h1
      subst h2
      refine ⟨?_, fun x hx => hb x (by simp [hx])⟩
      have e7 : b7 < 256 := hb b7 (by simp)
      have e6 : b6 < 256 := hb b6 (by simp)
      have e5 : b5 < 256 := hb b5 (by simp)
      have e4 : b4 < 256 := hb b4 (by simp)
      have e3 : b3 < 256 := hb b3 (by simp)
      have e2 : b2 < 256 := hb b2 (by simp)
      have e1 : b1 < 256 := hb b1 (by simp)
      have e0 : b0 < 256 := hb b0 (by simp)
      exact hcast 64 _ (by omega) (by omega)
  rw [if_neg h64] at h
  by_cases hf32 : bp = -32
  · rw [if_pos hf32] at h
    match bs, h with
    | b3 :: b2 :: b1 :: b0 :: r0, h =>
      replace h : (ieeeFloat 8 23 (((b3 * 256 + b2) * 256 + b1) * 256 + b0)).map
          (fun q => (q, r0)) = some (t, r) := h
      cases hie : ieeeFloat 8 23 (((b3 * 256 + b2) * 256 + b1) * 256 + b0) with
      | none => rw [hie] at h; exact Option.noConfusion h
      | some q =>
        rw [hie] at h
        simp only [Option.map_some', Option.map_some, Option.some.injEq, Prod.mk.injEq] at h
        obtain ⟨h1, h2⟩ := h
        subst h1
        subst h2
        exact ⟨ieee32_le _ _ hie, fun x hx => hb x (by simp [hx])⟩
  rw [if_neg hf32] at h
  by_cases hf64 : bp = -64
  · rw [if_pos hf64] at h
    match bs, h with
    | b7 :: b6 :: b5 :: b4 :: b3 :: b2 :: b1 :: b0 :: r0, h =>
      replace h : (ieeeFloat 11 52 (((((((b7 * 256 + b6) * 256 + b5) * 256 + b4) * 256 + b3)
          * 256 + b2) * 256 + b1) * 256 + b0)).map (fun q => (q, r0)) = some (t, r) := h
      cases hie : ieeeFloat 11 52 (((((((b7 * 256 + b6) * 256 + b5) * 256 + b4) * 256 + b3)
          * 256 + b2) * 256 + b1) * 256 + b0) with
      | none => rw [hie] at h; exact Option.noConfusion h
      | some q =>
        rw [hie] at h
        simp only [Option.map_some', Option.map_some, Option.some.injEq, Prod.mk.injEq] at h
        obtain ⟨h1, h2⟩ := h
        subst h1
        subst h2
        exact ⟨ieee64_le _ _ hie, fun x hx => hb x (by simp [hx])⟩
  rw [if_neg hf64] at h
  exact Option.noConfusion h

/-- All samples read from a byte stream are at most DBL_MAX. -/
theorem readSamples_le_DBL_MAX (bp : Int) :
    ∀ (n : Nat) (bs : List Nat) (vs : List ℚ) (rest : List Nat),
      (∀ x ∈ bs, x < 256) → readSamples bp n bs = some (vs, rest) →
      ∀ t ∈ vs, t ≤ DBL_MAX := by
  intro n
  induction n with
  | zero =>
    intro bs vs rest _ h
    simp only [readSamples, Option.some.injEq, Prod.mk.injEq] at h
    obtain ⟨h1, _⟩ := h
    subst h1
    simp
  | succ n ih =>
    intro bs vs rest hb h
    cases hr : readRaw bp bs with
    | none => simp only [readSamples, hr] at h; exact Option.noConfusion h
    | some p =>
      obtain ⟨t0, r0⟩ := p
      simp only [readSamples, hr] at h
      cases hs : readSamples bp n r0 with
      | none => rw [hs] at h; exact Option.noConfusion h
      | some q =>
        obtain ⟨ts, r2⟩ := q
        rw [hs] at h
        simp only [Option.some.injEq, Prod.mk.injEq] at h
        obtain ⟨h1, h2⟩ := h
        subst h1
        subst h2
        obtain ⟨ht0, hr0⟩ := readRaw_le_DBL_MAX bp bs t0 r0 hb hr
        intro t ht
        rcases List.mem_cons.mp ht with rfl | ht
        · exact ht0
        · exact ih r0 ts r2 hr0 hs t ht



theorem flatten_map_flatMap (f : Nat → List Nat) :
    ∀ (L : List (List Nat)),
      (L.map (fun row => row.flatMap f)).flatten = L.flatten.flatMap f := by
  intro L
  induction L with
  | nil => rfl
  | cons row L ih =>
    rw [List.map_cons, List.flatten_cons, ih, List.flatten_cons, List.flatMap_append]

theorem flatMap_sing : ∀ (l : List Nat), l.flatMap (fun r => [r]) = l := by
  intro l
  induction l with
  | nil => rfl
  | cons r l ih => rw [List.flatMap_cons, ih, List.singleton_append]

/-- The encoded gray data segment is the bottom-up sample stream with
each sample encoded by encSample. -/
theorem encData_eq (ebp : Int) (R : List (List Nat)) :
    fits_encode_gray_data ebp R = (R.reverse.flatten).flatMap (encSample ebp) := by
  rw [fits_encode_gray_data]
  by_cases h16 : ebp = 16
  · have hfun : encSample ebp = putBE16sub 32768 := by
      funext r
      rw [encSample, if_pos h16]
    rw [hfun]
    simp only [if_pos h16]
    exact flatten_map_flatMap _ R.reverse
  · have hfun : encSample ebp = fun r => [r] := by
      funext r
      rw [encSample, if_neg h16]
    rw [hfun, flatMap_sing]
    simp only [if_neg h16, List.map_id']

/-- Reading back an encoded sample stream recovers the values encPhi. -/
theorem readSamples_enc (ebp : Int) (hc : ebp = 8 ∨ ebp = 16) :
    ∀ (rs : List Nat) (rest : List Nat), (∀ r ∈ rs, r < 2^16) →
      readSamples ebp rs.length (rs.flatMap (encSample ebp) ++ rest) =
        some (rs.map (encPhi ebp), rest) := by
  intro rs
  induction rs with
  | nil => intro rest _; rfl
  | cons r rs ih =>
    intro rest hlt
    have hr : r < 2^16 := hlt r (by simp)
    have htail : ∀ x ∈ rs, x < 2^16 := fun x hx => hlt x (by simp [hx])
    rw [List.flatMap_cons, List.length_cons, List.append_assoc]
    rcases hc with h8 | h16
    · subst h8
      rw [show encSample 8 r = [r] from by
        rw [encSample, if_neg (by norm_num : ¬ (8 : Int) = 16)]]
      rw [List.singleton_append]
      have hrr : readRaw 8 (r :: (rs.flatMap (encSample 8) ++ rest)) =
          some ((r : ℚ), rs.flatMap (encSample 8) ++ rest) := rfl
      simp only [readSamples, hrr, ih rest htail]
      rw [List.map_cons]
      rw [show encPhi 8 r = (r : ℚ) from by
        rw [encPhi, if_neg (by norm_num : ¬ (8 : Int) = 16)]]
    · subst h16
      rw [show encSample 16 r = putBE16sub 32768 r from by rw [encSample, if_pos rfl]]
      simp only [readSamples,
        putBE16sub_roundtrip r hr (rs.flatMap (encSample 16) ++ rest), ih rest htail]
      rw [List.map_cons]
      rw [show encPhi 16 r = (r : ℚ) - 32768 from by rw [encPhi, if_pos rfl]]

/-- Flattening the spec rows gives the pointwise-mapped sample list. -/
theorem grayRowsSpec_flatten (g : ℚ → Nat) (w : Nat) :
    ∀ (h : Nat) (vs : List ℚ), vs.length = h * w →
      (grayRowsSpec g w h vs).flatten = vs.map g := by
  intro h
  induction h with
  | zero =>
    intro vs hlen
    rw [Nat.zero_mul] at hlen
    rw [List.length_eq_zero] at hlen
    subst hlen
    rfl
  | succ h ih =>
    intro vs hlen
    rw [grayRowsSpec, List.flatten_cons, ih (vs.drop w)
      (by rw [List.length_drop, hlen, Nat.succ_mul]; omega)]
    rw [← List.map_append, List.take_append_drop]

/-- grayRowsSpec over a mapped sample list composes the maps. -/
theorem grayRowsSpec_map (g : ℚ → Nat) (σ : ℚ → ℚ) (w : Nat) :
    ∀ (h : Nat) (vs : List ℚ),
      grayRowsSpec g w h (vs.map σ) = grayRowsSpec (fun t => g (σ t)) w h vs := by
  intro h
  induction h with
  | zero => intro vs; rfl
  | succ h ih =>
    intro vs
    rw [grayRowsSpec, grayRowsSpec, ← List.map_take, List.map_map, ← List.map_drop, ih]
    rfl

/-- grayRowsSpec only depends on the function's values on the list. -/
theorem grayRowsSpec_congr (f g : ℚ → Nat) (w : Nat) :
    ∀ (h : Nat) (vs : List ℚ), (∀ t ∈ vs, f t = g t) →
      grayRowsSpec f w h vs = grayRowsSpec g w h vs := by
  intro h
  induction h with
  | zero => intro vs _; rfl
  | succ h ih =>
    intro vs hfg
    rw [grayRowsSpec, grayRowsSpec,
      List.map_congr_left (fun t ht => hfg t (List.take_subset w vs ht)),
      ih (vs.drop w) (fun t ht => hfg t (List.drop_subset w vs ht))]

/-- Storing a nonnegative in-range value keeps it exactly. -/
theorem cvtStore_floor (width : Nat) (q : ℚ) (K : Nat) (h0 : 0 ≤ q) (hK : q ≤ K)
    (hKw : K < 2^width) : cvtStore width q = (⌊q⌋).toNat ∧ ⌊q⌋ ≤ K ∧ 0 ≤ ⌊q⌋ := by
  have hf0 : 0 ≤ ⌊q⌋ := Int.le_floor.mpr (by exact_mod_cast h0)
  have hfK : ⌊q⌋ ≤ K := by
    have := Int.floor_le_floor hK
    rwa [Int.floor_natCast] at this
  refine ⟨?_, hfK, hf0⟩
  rw [cvtStore, truncQ, if_neg (not_lt.mpr h0)]
  congr 1
  apply Int.emod_eq_of_lt hf0
  calc ⌊q⌋ ≤ (K : Int) := hfK
    _ < 2^width := by exact_mod_cast hKw

/-- Storing a natural below the destination width keeps it exactly. -/
theorem cvtStore_natCast (width n : Nat) (h : n < 2^width) :
    cvtStore width ((n : ℕ) : ℚ) = n := by
  obtain ⟨h1, _, _⟩ := cvtStore_floor width ((n : ℕ) : ℚ) n (Nat.cast_nonneg n) le_rfl h
  rw [h1, Int.floor_natCast, Int.toNat_natCast]

/-- C9 (amended): for a grayscale unit decoded through the scan path (no
DATAMIN/DATAMAX, no BLANK) whose samples are not all below DBL_MIN and
not all equal, decoding, re-encoding the raster at the output depth, and
decoding the result again reproduces the same raster. -/
theorem gray_decode_encode_decode (bp : Int) (w h : Nat) (bs : List Nat)
    (vs : List ℚ) (rest : List Nat)
    (hbytes : ∀ x ∈ bs, x < 256)
    (hread : readSamples bp (h * w) bs = some (vs, rest))
    (hmax : ∃ t ∈ vs, DBL_MIN ≤ t)
    (hne : vs.foldl min DBL_MAX ≠ vs.foldl max DBL_MIN) :
    ∃ R : List (List Nat),
      grayPipelineScan bp false 0 w h bs = some R ∧
      grayPipelineScan ((grayW bp : Nat) : Int) false 0 w h
        (fits_encode_gray_data ((grayW bp : Nat) : Int) R) = some R := by
  obtain ⟨t0, ht0v, ht0⟩ := hmax
  have hvsle := readSamples_le_DBL_MAX bp (h * w) bs vs rest hbytes hread
  have hminle := (foldl_min_le vs DBL_MAX).2
  have hmaxge := (foldl_max_ge vs DBL_MIN).2
  obtain ⟨tm, htmv, htm⟩ : ∃ tm ∈ vs, vs.foldl min DBL_MAX = tm := by
    rcases foldl_min_attain vs DBL_MAX with hA | hA
    · refine ⟨t0, ht0v, ?_⟩
      have h1 := hminle t0 ht0v
      rw [hA] at h1 ⊢
      exact (le_antisymm (hvsle t0 ht0v) h1).symm
    · exact hA
  obtain ⟨tM, htMv, htM⟩ : ∃ tM ∈ vs, vs.foldl max DBL_MIN = tM := by
    rcases foldl_max_attain vs DBL_MIN with hA | hA
    · refine ⟨t0, ht0v, ?_⟩
      have h1 := hmaxge t0 ht0v
      rw [hA] at h1 ⊢
      exact (le_antisymm h1 ht0).symm
    · exact hA
  set m := vs.foldl min DBL_MAX with hmdef
  set M := vs.foldl max DBL_MIN with hMdef
  have hmM : m < M := by
    have h1 := hminle t0 ht0v
    have h2 := hmaxge t0 ht0v
    rcases lt_or_eq_of_le (h1.trans h2) with hlt | heq
    · exact hlt
    · exact absurd heq hne
  have hneq : M - m ≠ 0 := sub_ne_zero.mpr hmM.ne'
  have hfill : fill_data_min_max bp false 0 w h bs = some (m, M) := by
    rw [fill_data_min_max_eq bp false 0 w h bs vs rest hread, mmUpd_false_fold]
  have hdec1 : fits_decode_gray bp false 0 m M w h bs =
      some ((grayRowsSpec (graySpecFun bp false 0 m M) w h vs).reverse) := by
    rw [fits_decode_gray, grayRows_eq bp false 0 m M hneq w h bs vs rest hread]
    rfl
  refine ⟨(grayRowsSpec (graySpecFun bp false 0 m M) w h vs).reverse, ?_, ?_⟩
  · rw [grayPipelineScan.eq_def, hfill]
    exact hdec1
  · have hlenvs : vs.length = h * w := readSamples_length bp (h * w) bs vs rest hread
    have hc : ((grayW bp : Nat) : Int) = 8 ∨ ((grayW bp : Nat) : Int) = 16 := by
      by_cases h8 : bp = 8
      · left; simp [grayW, h8]
      · right; simp [grayW, h8]
    have hKW1 : grayK ((grayW bp : Nat) : Int) = grayK bp := by
      by_cases h8 : bp = 8
      · simp [grayW, grayK, h8]
      · simp [grayW, grayK, h8]
    have hKW2 : grayW ((grayW bp : Nat) : Int) = grayW bp := by
      by_cases h8 : bp = 8
      · simp [grayW, h8]
      · simp [grayW, h8]
    have hKpos : 0 < grayK bp := by
      by_cases h8 : bp = 8 <;> norm_num [grayK, h8]
    have hKlt : grayK bp < 2^(grayW bp) := by
      by_cases h8 : bp = 8 <;> norm_num [grayK, grayW, h8]
    have hK16 : grayK bp < 2^16 := by
      by_cases h8 : bp = 8 <;> norm_num [grayK, h8]
    have hgdef : ∀ t : ℚ, graySpecFun bp false 0 m M t =
        cvtStore (grayW bp) ((t - m) * (grayK bp : ℚ) / (M - m)) := by
      intro t
      rw [graySpecFun, if_neg (by simp)]
    have hMm : (0:ℚ) < M - m := sub_pos.mpr hmM
    have hxr : ∀ t ∈ vs, 0 ≤ (t - m) * (grayK bp : ℚ) / (M - m) ∧
        (t - m) * (grayK bp : ℚ) / (M - m) ≤ grayK bp := by
      intro t htv
      have h1 : m ≤ t := hminle t htv
      have h2 : t ≤ M := hmaxge t htv
      constructor
      · exact div_nonneg (mul_nonneg (sub_nonneg.mpr h1) (Nat.cast_nonneg _)) hMm.le
      · rw [div_le_iff₀ hMm]
        have h3 : t - m ≤ M - m := by linarith
        calc (t - m) * (grayK bp : ℚ) ≤ (M - m) * (grayK bp : ℚ) :=
              mul_le_mul_of_nonneg_right h3 (Nat.cast_nonneg _)
          _ = (grayK bp : ℚ) * (M - m) := mul_comm _ _
    have hgle : ∀ t ∈ vs, graySpecFun bp false 0 m M t ≤ grayK bp := by
      intro t htv
      obtain ⟨hx0, hxK⟩ := hxr t htv
      rw [hgdef t]
      obtain ⟨h1, h2, h3⟩ := cvtStore_floor (grayW bp) _ (grayK bp) hx0 hxK hKlt
      rw [h1]
      omega
    have hg0 : graySpecFun bp false 0 m M tm = 0 := by
      rw [hgdef tm, ← htm, sub_self, zero_mul, zero_div]
      rw [show ((0:ℚ)) = ((0:ℕ):ℚ) from by norm_num]
      exact cvtStore_natCast (grayW bp) 0 (by positivity)
    have hgK : graySpecFun bp false 0 m M tM = grayK bp := by
      rw [hgdef tM, ← htM, mul_div_cancel_left₀ _ hneq]
      exact cvtStore_natCast (grayW bp) (grayK bp) hKlt
    have hflat : (grayRowsSpec (graySpecFun bp false 0 m M) w h vs).flatten =
        vs.map (graySpecFun bp false 0 m M) :=
      grayRowsSpec_flatten _ w h vs hlenvs
    have hENC : fits_encode_gray_data ((grayW bp : Nat) : Int)
        ((grayRowsSpec (graySpecFun bp false 0 m M) w h vs).reverse) =
        (vs.map (graySpecFun bp false 0 m M)).flatMap
          (encSample ((grayW bp : Nat) : Int)) := by
      rw [encData_eq, List.reverse_reverse, hflat]
    have hwslt : ∀ r ∈ vs.map (graySpecFun bp false 0 m M), r < 2^16 := by
      intro r hr
      obtain ⟨t, htv, rfl⟩ := List.mem_map.mp hr
      exact lt_of_le_of_lt (hgle t htv) hK16
    have hlen2 : (vs.map (graySpecFun bp false 0 m M)).length = h * w := by
      rw [List.length_map, hlenvs]
    have hread2 : readSamples ((grayW bp : Nat) : Int) (h * w)
        (fits_encode_gray_data ((grayW bp : Nat) : Int)
          ((grayRowsSpec (graySpecFun bp false 0 m M) w h vs).reverse)) =
        some ((vs.map (graySpecFun bp false 0 m M)).map
          (encPhi ((grayW bp : Nat) : Int)), []) := by
      rw [hENC, ← hlen2]
      have hre := readSamples_enc _ hc (vs.map (graySpecFun bp false 0 m M)) [] hwslt
      rwa [List.append_nil] at hre
    have hphisub : ∀ a b : Nat, encPhi ((grayW bp : Nat) : Int) a -
        encPhi ((grayW bp : Nat) : Int) b = (a : ℚ) - (b : ℚ) := by
      intro a b
      rcases hc with h8 | h16
      · rw [encPhi, encPhi, if_neg (by rw [h8]; norm_num), if_neg (by rw [h8]; norm_num)]
      · rw [encPhi, encPhi, if_pos h16, if_pos h16]
        ring
    have hphi0le : encPhi ((grayW bp : Nat) : Int) 0 ≤ DBL_MAX := by
      rcases hc with h8 | h16
      · rw [encPhi, if_neg (by rw [h8]; norm_num), DBL_MAX]
        positivity
      · rw [encPhi, if_pos h16, DBL_MAX]
        have hp : (0:ℚ) ≤ (((2^53 - 1) * 2^971 : ℕ) : ℚ) := by positivity
        have hz : ((0:ℕ):ℚ) = 0 := by norm_num
        rw [hz]
        linarith
    have hphiKge : DBL_MIN ≤ encPhi ((grayW bp : Nat) : Int) (grayK bp) := by
      rcases hc with h8 | h16
      · rw [encPhi, if_neg (by rw [h8]; norm_num)]
        have h1 : (1:ℚ) ≤ (grayK bp : ℚ) := by exact_mod_cast hKpos
        have h2 : DBL_MIN ≤ 1 := by rw [DBL_MIN]; norm_num
        linarith
      · have h8 : ¬ bp = 8 := by
          intro hh
          rw [grayW, if_pos hh] at h16
          norm_num at h16
        rw [encPhi, if_pos h16, grayK, if_neg h8, DBL_MIN]
        norm_num
    have hfill2 : fill_data_min_max ((grayW bp : Nat) : Int) false 0 w h
        (fits_encode_gray_data ((grayW bp : Nat) : Int)
          ((grayRowsSpec (graySpecFun bp false 0 m M) w h vs).reverse)) =
        some (encPhi ((grayW bp : Nat) : Int) 0,
          encPhi ((grayW bp : Nat) : Int) (grayK bp)) := by
      rw [fill_data_min_max_eq _ false 0 w h _ _ [] hread2, mmUpd_false_fold]
      have hmin2 : ((vs.map (graySpecFun bp false 0 m M)).map
          (encPhi ((grayW bp : Nat) : Int))).foldl min DBL_MAX =
          encPhi ((grayW bp : Nat) : Int) 0 := by
        apply foldl_min_eq
        · exact List.mem_map.mpr ⟨0, List.mem_map.mpr ⟨tm, htmv, hg0⟩, rfl⟩
        · intro q hq
          obtain ⟨r, hrm, rfl⟩ := List.mem_map.mp hq
          have hs := hphisub r 0
          have hr0 : (0:ℚ) ≤ (r:ℚ) := Nat.cast_nonneg r
          have hz : ((0:ℕ):ℚ) = 0 := by norm_num
          rw [hz] at hs
          linarith
        · exact hphi0le
      have hmax2 : ((vs.map (graySpecFun bp false 0 m M)).map
          (encPhi ((grayW bp : Nat) : Int))).foldl max DBL_MIN =
          encPhi ((grayW bp : Nat) : Int) (grayK bp) := by
        apply foldl_max_eq
        · exact List.mem_map.mpr ⟨grayK bp, List.mem_map.mpr ⟨tM, htMv, hgK⟩, rfl⟩
        · intro q hq
          obtain ⟨r, hrm, rfl⟩ := List.mem_map.mp hq
          obtain ⟨t, htv, rfl⟩ := List.mem_map.mp hrm
          have hle := hgle t htv
          have hs := hphisub (grayK bp) (graySpecFun bp false 0 m M t)
          have hcast : ((graySpecFun bp false 0 m M t : ℕ) : ℚ) ≤ ((grayK bp : ℕ) : ℚ) := by
            exact_mod_cast hle
          linarith
        · exact hphiKge
      rw [hmin2, hmax2]
    have hneq2 : encPhi ((grayW bp : Nat) : Int) (grayK bp) -
        encPhi ((grayW bp : Nat) : Int) 0 ≠ 0 := by
      rw [hphisub]
      have hz : ((0:ℕ):ℚ) = 0 := by norm_num
      rw [hz, sub_zero]
      exact_mod_cast hKpos.ne'
    have hdec2 : fits_decode_gray ((grayW bp : Nat) : Int) false 0
        (encPhi ((grayW bp : Nat) : Int) 0) (encPhi ((grayW bp : Nat) : Int) (grayK bp))
        w h (fits_encode_gray_data ((grayW bp : Nat) : Int)
          ((grayRowsSpec (graySpecFun bp false 0 m M) w h vs).reverse)) =
        some ((grayRowsSpec (graySpecFun ((grayW bp : Nat) : Int) false 0
          (encPhi ((grayW bp : Nat) : Int) 0) (encPhi ((grayW bp : Nat) : Int) (grayK bp)))
          w h ((vs.map (graySpecFun bp false 0 m M)).map
            (encPhi ((grayW bp : Nat) : Int)))).reverse) := by
      rw [fits_decode_gray, grayRows_eq _ false 0 _ _ hneq2 w h _ _ [] hread2]
      rfl
    have hrows : grayRowsSpec (graySpecFun ((grayW bp : Nat) : Int) false 0
          (encPhi ((grayW bp : Nat) : Int) 0) (encPhi ((grayW bp : Nat) : Int) (grayK bp)))
          w h ((vs.map (graySpecFun bp false 0 m M)).map
            (encPhi ((grayW bp : Nat) : Int))) =
        grayRowsSpec (graySpecFun bp false 0 m M) w h vs := by
      rw [List.map_map, grayRowsSpec_map]
      apply grayRowsSpec_congr
      intro t htv
      show graySpecFun ((grayW bp : Nat) : Int) false 0
          (encPhi ((grayW bp : Nat) : Int) 0) (encPhi ((grayW bp : Nat) : Int) (grayK bp))
          (encPhi ((grayW bp : Nat) : Int) (graySpecFun bp false 0 m M t)) =
        graySpecFun bp false 0 m M t
      rw [graySpecFun, if_neg (by simp), hKW1, hKW2]
      have e1 : encPhi ((grayW bp : Nat) : Int) (graySpecFun bp false 0 m M t) -
          encPhi ((grayW bp : Nat) : Int) 0 =
          ((graySpecFun bp false 0 m M t : ℕ) : ℚ) := by
        rw [hphisub]
        norm_num
      have e2 : encPhi ((grayW bp : Nat) : Int) (grayK bp) -
          encPhi ((grayW bp : Nat) : Int) 0 = ((grayK bp : ℕ) : ℚ) := by
        rw [hphisub]
        norm_num
      rw [e1, e2, mul_div_cancel_right₀ _ (by exact_mod_cast hKpos.ne' :
        ((grayK bp : ℕ) : ℚ) ≠ 0)]
      exact cvtStore_natCast (grayW bp) _ (lt_of_le_of_lt (hgle t htv) hKlt)
    rw [grayPipelineScan.eq_def, hfill2]
    exact hdec2.trans (by rw [hrows])

/-- C9 witness: the BITPIX 8 packet with samples [0,1,2] decodes to a
raster that re-encodes and re-decodes to itself. -/
theorem gray_decode_encode_decode_witness :
    ∃ R : List (List Nat),
      grayPipelineScan 8 false 0 3 1 [0, 1, 2] = some R ∧
      grayPipelineScan ((grayW 8 : Nat) : Int) false 0 3 1
        (fits_encode_gray_data ((grayW 8 : Nat) : Int) R) = some R :=
  gray_decode_encode_decode 8 3 1 [0, 1, 2] [0, 1, 2] []
    (by decide)
    (by norm_num [readSamples, readRaw])
    ⟨2, by norm_num, by rw [DBL_MIN]; norm_num⟩
    (by norm_num [List.foldl, min_def, max_def, DBL_MAX, DBL_MIN])

/-- C9 counterexample to the unrestricted claim: an image unit carrying
DATAMIN = 0 / DATAMAX = 255 decodes [100,200] to itself, but the
re-encoded unit has no DATAMIN/DATAMAX, so the second decode rescans and
stretches the raster to [0,255]. -/
theorem gray_decode_encode_decode_cex :
    grayPipelineMinMax 8 false 0 1 0 0 255 2 1 [100, 200] = some [[100, 200]] ∧
    fits_encode_gray_data 8 [[100, 200]] = [100, 200] ∧
    grayPipelineScan 8 false 0 2 1 [100, 200] = some [[0, 255]] ∧
    ([[0, 255]] : List (List Nat)) ≠ [[100, 200]] := by
  refine ⟨?_, ?_, ?_, by decide⟩
  · norm_num [grayPipelineMinMax, fits_decode_gray, grayRows, grayRow, graySample,
      readRaw, grayK, grayW, cvtStore, truncQ]
    decide
  · rfl
  · norm_num [grayPipelineScan, fill_data_min_max, fillRows, fillRow, readRaw, mmUpd,
      DBL_MIN, DBL_MAX, fits_decode_gray, grayRows, grayRow, graySample, grayK, grayW,
      cvtStore, truncQ]
    decide
